import Mathlib

/-!
# EIP-7702 delegation and sponsored-transaction engine

A shallow embedding of `eip7702/delegation.go` and `eip7702/calldata.go`.

* Go byte slices are lists of `Byte` (`Fin 256`); `common.Address` is a list of
  exactly twenty bytes.
* `*big.Int` is `Int` (`Option Int` where the code reads a pointer that may be
  nil); `uint64` and `uint8` values are `Nat`, reduced modulo the width
  wherever the Go code computes with them.
* A Go function returning `(T, error)` returns `Except Fault T`; a run-time
  panic (nil dereference, explicit `panic`) is the `Fault.panic` outcome.
* The chain client is an explicit state machine; every request is recorded in
  a log so that "the client is not asked" is a statement about the log.
* Library cryptography (Keccak-256, secp256k1, transaction signing) is a
  parameter, `Crypto`; the library contracts used are stated as hypotheses.
-/

namespace EIP7702

/-! ## Bytes -/

/-- One octet. -/
abbrev Byte := Fin 256

/-- The low eight bits of a number. -/
def byteOfNat (n : Nat) : Byte := ⟨n % 256, Nat.mod_lt n (by decide)⟩

/-- Big-endian value of a byte string (`big.Int.SetBytes`). -/
def fromBytesBE (bs : List Byte) : Nat :=
  bs.foldl (fun acc b => acc * 256 + b.val) 0

/-- Worker of `bigBytes`: peels low bytes off `n` onto the accumulator. -/
def bigBytesAux : Nat → Nat → List Byte → List Byte
  | 0, _, acc => acc
  | fuel + 1, n, acc =>
    if n = 0 then acc else bigBytesAux fuel (n / 256) (byteOfNat n :: acc)

/-- Minimal big-endian bytes of a natural number; empty for zero. -/
def natBytes (n : Nat) : List Byte := bigBytesAux n n []

/-- The method `(*big.Int).Bytes`: big-endian bytes of the absolute value. -/
def bigBytes (x : Int) : List Byte := natBytes x.natAbs

/-- The function `common.LeftPadBytes`: the slice itself when it already has
`l` bytes or more, otherwise zero bytes in front up to length `l`. -/
def LeftPadBytes (slice : List Byte) (l : Nat) : List Byte :=
  if l ≤ slice.length then slice
  else List.replicate (l - slice.length) (0 : Byte) ++ slice

/-- The function `common.RightPadBytes`. -/
def RightPadBytes (slice : List Byte) (l : Nat) : List Byte :=
  if l ≤ slice.length then slice
  else slice ++ List.replicate (l - slice.length) (0 : Byte)

/-- Fixed-width big-endian bytes: the low `k` bytes of `n`. -/
def fixedBE : Nat → Nat → List Byte
  | 0, _ => []
  | k + 1, n => fixedBE k (n / 256) ++ [byteOfNat n]

/-! ## Hexadecimal text (`encoding/hex`) -/

/-- Lower-case hexadecimal digit of a value below sixteen. -/
def hexDigit (n : Nat) : Char :=
  match n with
  | 0 => '0' | 1 => '1' | 2 => '2' | 3 => '3' | 4 => '4' | 5 => '5' | 6 => '6' | 7 => '7'
  | 8 => '8' | 9 => '9' | 10 => 'a' | 11 => 'b' | 12 => 'c' | 13 => 'd' | 14 => 'e'
  | _ => 'f'

/-- Value of a hexadecimal digit, either case (`fromHexChar`). -/
def hexVal (c : Char) : Option Nat :=
  if '0' ≤ c ∧ c ≤ '9' then some (c.toNat - 48)
  else if 'a' ≤ c ∧ c ≤ 'f' then some (c.toNat - 87)
  else if 'A' ≤ c ∧ c ≤ 'F' then some (c.toNat - 55)
  else none

/-- The characters of `hex.EncodeToString`. -/
def hexEncode : List Byte → List Char
  | [] => []
  | b :: bs => hexDigit (b.val / 16) :: hexDigit (b.val % 16) :: hexEncode bs

/-- The function `hex.DecodeString`: the bytes decoded before the first
problem, and whether the whole text was valid. -/
def hexDecode : List Char → List Byte × Bool
  | [] => ([], true)
  | [_] => ([], false)
  | h :: l :: rest =>
    match hexVal h, hexVal l with
    | some a, some b =>
      let r := hexDecode rest
      (byteOfNat (a * 16 + b) :: r.1, r.2)
    | _, _ => ([], false)

/-- The function `strings.TrimPrefix(s, "0x")`. -/
def trim0x : List Char → List Char
  | '0' :: 'x' :: rest => rest
  | s => s

/-- The function `common.Hex2Bytes`: decoding errors are dropped. -/
def Hex2Bytes (s : List Char) : List Byte := (hexDecode s).1

/-- The Go expression `"0x" + hex.EncodeToString(data)`. -/
def hexString (data : List Byte) : String := String.mk ('0' :: 'x' :: hexEncode data)

/-! ## Addresses -/

/-- A `common.Address`: twenty bytes. -/
structure Address where
  bytes : List Byte
  len : bytes.length = 20
deriving DecidableEq

/-- The zero value `common.Address{}`. -/
def Address.zero : Address := ⟨List.replicate 20 0, by decide⟩

/-- The function `common.BytesToAddress`: the last twenty bytes, zero-padded
on the left when there are fewer. -/
def BytesToAddress (b : List Byte) : Address :=
  ⟨LeftPadBytes (b.drop (b.length - 20)) 20, by
    unfold LeftPadBytes
    split
    · rename_i h
      simp only [List.length_drop] at h ⊢
      omega
    · rename_i h
      simp only [List.length_drop, List.length_append, List.length_replicate] at h ⊢
      omega⟩

/-- The function `common.FromHex`: optional `0x`/`0X`, odd length gets a
leading zero digit, then `Hex2Bytes`. -/
def FromHex (s : List Char) : List Byte :=
  let s1 := match s with
    | '0' :: 'x' :: rest => rest
    | '0' :: 'X' :: rest => rest
    | t => t
  let s2 := if s1.length % 2 = 1 then '0' :: s1 else s1
  Hex2Bytes s2

/-- The function `common.HexToAddress`. -/
def HexToAddress (s : String) : Address := BytesToAddress (FromHex s.data)

/-- The constant `TokenContract`. -/
def TokenContract : String := "0x93d77bE58A977350B924C0694242b075eB26AEdE"

/-- The constant `DelegateContract`. -/
def DelegateContract : String := "0x1f0F9d7e19991e7E296630DC0073610f23CF066a"

/-! ## Data model (`delegation.go`) -/

/-- The struct `Authorization`. -/
structure Authorization where
  ChainID : Nat
  Address : Address
  Nonce : Nat
  V : Nat
  R : List Byte
  S : List Byte
  Signer : EIP7702.Address
  CreatedAt : Int
deriving DecidableEq

/-- The struct `Call`; a nil `Value` pointer is `none`. -/
structure Call where
  To : Address
  Data : List Byte
  Value : Option Int
  GasLimit : Nat
deriving DecidableEq

/-- One entry of a set-code transaction authorization list
(`types.SetCodeAuthorization`); `ChainID`, `R`, `S` are 256-bit numbers. -/
structure SetCodeAuthorization where
  ChainID : Nat
  Address : Address
  Nonce : Nat
  V : Nat
  R : Nat
  S : Nat
deriving DecidableEq

/-- The unsigned transaction body `types.SetCodeTx`. -/
structure SetCodeTx where
  ChainID : Nat
  Nonce : Nat
  GasTipCap : Nat
  GasFeeCap : Nat
  Gas : Nat
  To : Address
  Value : Nat
  Data : List Byte
  AuthList : List SetCodeAuthorization
deriving DecidableEq

/-- A signed transaction: the body handed to `types.SignNewTx` together with
the signature the library attached. -/
structure Transaction where
  inner : SetCodeTx
  sig : List Byte
deriving DecidableEq

/-- An `*ecdsa.PrivateKey` that is not nil: the secret scalar. -/
structure PrivateKey where
  D : Nat
deriving DecidableEq

/-! ## Outcomes -/

/-- The error values the engine creates, one constructor per `errors.New` or
`fmt.Errorf` site, with the values the message is formatted from. -/
inductive Err where
  | notReady
  | signerKeyNil
  | contractZero
  | unknownContract (addr : Address)
  | getNonceFailed (signer : Address) (cause : String)
  | signFailed (cause : String)
  | authorizationNil
  | authorizationTooOld
  | chainIDMismatch
  | checkNonceFailed (cause : String)
  | nonceMismatch (expected got : Nat)
  | noCalls
  | callZeroAddress (i : Nat)
  | totalValueTooHigh (total : Int)
  | invalidAuthorization (e : Err)
  | invalidCalls (e : Err)
  | sponsorNonceFailed (cause : String)
  | library (cause : String)
  | executeParamCount
  | executeNotArray
  | callNotObject (i : Nat)
  | callDataNotString (i : Nat)
  | callToNotString (i : Nat)
  | callValueNotString (i : Nat)
  | callInvalidData (i : Nat)
  | callInvalidAddress (i : Nat) (text : String)
  | callInvalidValue (i : Nat) (text : String)
  | arraysNotSupportedGeneric
  | arraysNotSupported
  | unsupportedString (text : String)
  | unsupportedType
deriving DecidableEq

/-- The message template of each error site, as written in the source. -/
def Err.reason : Err → String
  | .notReady => "service not properly initialized"
  | .signerKeyNil => "signer private key is nil"
  | .contractZero => "contract address is zero"
  | .unknownContract _ => "unknown/untrusted contract: %s"
  | .getNonceFailed _ _ => "failed to get nonce for %s: %w"
  | .signFailed _ => "failed to sign authorization: %w"
  | .authorizationNil => "authorization is nil"
  | .authorizationTooOld => "authorization too old"
  | .chainIDMismatch => "chain ID mismatch"
  | .checkNonceFailed _ => "failed to check current nonce: %w"
  | .nonceMismatch _ _ => "nonce mismatch: expected %d, got %d"
  | .noCalls => "no calls provided"
  | .callZeroAddress _ => "call %d has zero address"
  | .totalValueTooHigh _ => "total value too high: %s"
  | .invalidAuthorization _ => "invalid authorization: %w"
  | .invalidCalls _ => "invalid calls: %w"
  | .sponsorNonceFailed _ => "failed to get sponsor nonce: %w"
  | .library _ => "%w"
  | .executeParamCount => "execute expects exactly 1 parameter (array of calls)"
  | .executeNotArray => "execute parameter must be an array"
  | .callNotObject _ => "call %d must be an object"
  | .callDataNotString _ => "call %d: \x27data\x27 must be a string"
  | .callToNotString _ => "call %d: \x27to\x27 must be a string"
  | .callValueNotString _ => "call %d: \x27value\x27 must be a string"
  | .callInvalidData _ => "call %d: invalid data hex: %v"
  | .callInvalidAddress _ _ => "call %d: invalid address: %s"
  | .callInvalidValue _ _ => "call %d: invalid value: %s"
  | .arraysNotSupportedGeneric => "arrays not supported in generic encoding, use specific functions"
  | .arraysNotSupported => "arrays not supported, use specific functions"
  | .unsupportedString _ => "unsupported string format: %s"
  | .unsupportedType => "unsupported parameter type: %T"

/-- How a call can end without a result: a returned error or a panic. -/
inductive Fault where
  | error (e : Err)
  | panic (what : String)
deriving DecidableEq

/-! ## Library cryptography -/

/-- The library functions the engine calls: `crypto.Keccak256`,
`crypto.PubkeyToAddress`, `crypto.Sign` (65 bytes `R ‖ S ‖ V`),
signature recovery (`crypto.SigToPub` followed by `PubkeyToAddress`), and
`types.SignNewTx` under the Prague signer of a chain id. -/
structure Crypto where
  Keccak256 : List Byte → List Byte
  PubkeyToAddress : PrivateKey → Address
  Sign : List Byte → PrivateKey → Except String (List Byte)
  Recover : List Byte → List Byte → Option Address
  SignNewTx : PrivateKey → Int → SetCodeTx → Except String (List Byte)

/-- The contract of `crypto.Sign` relied upon: a produced signature has 65
bytes, its last byte is the recovery id 0 or 1, and recovering it over the
signed hash gives the address of the signing key. -/
structure Crypto.SignContract (C : Crypto) : Prop where
  length : ∀ h k sig, C.Sign h k = .ok sig → sig.length = 65
  recid : ∀ h k sig, C.Sign h k = .ok sig → ∀ v, sig.get? 64 = some v → v.val ≤ 1
  recover : ∀ h k sig, C.Sign h k = .ok sig → C.Recover h sig = some (C.PubkeyToAddress k)

/-- The contract of `crypto.Keccak256` relied upon: a digest has 32 bytes. -/
def Crypto.KeccakContract (C : Crypto) : Prop := ∀ m, (C.Keccak256 m).length = 32

/-! ## Chain client -/

/-- The interface `EthClient`, as far as the engine calls it: each request
maps the client state to an answer and a next state. -/
structure EthClient (σ : Type) where
  NonceAt : σ → Address → Except String Nat × σ
  SuggestGasTipCap : σ → Except String Int × σ

/-- A request made to the chain client. -/
inductive RPCCall where
  | nonceAt (a : Address)
  | suggestGasTipCap
deriving DecidableEq

/-- The client state and the requests made so far, oldest first. -/
structure World (σ : Type) where
  st : σ
  log : List RPCCall

/-- A nonce read, recorded in the log. -/
def rpcNonceAt {σ : Type} (rpc : EthClient σ) (a : Address) (w : World σ) :
    Except String Nat × World σ :=
  ((rpc.NonceAt w.st a).1, ⟨(rpc.NonceAt w.st a).2, w.log ++ [.nonceAt a]⟩)

/-- A fee-tip read, recorded in the log. -/
def rpcSuggestGasTipCap {σ : Type} (rpc : EthClient σ) (w : World σ) :
    Except String Int × World σ :=
  ((rpc.SuggestGasTipCap w.st).1, ⟨(rpc.SuggestGasTipCap w.st).2, w.log ++ [.suggestGasTipCap]⟩)

/-- The struct `DelegationService`; either field may be nil. -/
structure DelegationService (σ : Type) where
  ChainID : Option Int
  RPC : Option (EthClient σ)

/-! ## Machine integers -/

/-- The method `(*big.Int).Uint64`: the low 64 bits of the absolute value. -/
def bigUint64 (x : Int) : Nat := x.natAbs % 2 ^ 64

/-- Two's-complement wrap of an integer into `int64`. -/
def wrapInt64 (z : Int) : Int := (z + 2 ^ 63) % 2 ^ 64 - 2 ^ 63

/-- The function `uint256.MustFromBig`: panics when the magnitude needs more
than 256 bits, and maps a negative number to its two's complement. -/
def MustFromBig (b : Int) : Except Fault Nat :=
  if 2 ^ 256 ≤ b.natAbs then .error (.panic "overflow")
  else if b < 0 then .ok ((2 ^ 256 - b.natAbs) % 2 ^ 256)
  else .ok b.natAbs

/-! ## RLP (`rlp.EncodeToBytes`) -/

/-- Header of an RLP item of the given payload length; `base` is `0x80` for a
string and `0xc0` for a list. -/
def rlpHeader (base : Nat) (len : Nat) : List Byte :=
  if len < 56 then [byteOfNat (base + len)]
  else byteOfNat (base + 55 + (natBytes len).length) :: natBytes len

/-- RLP of a byte string. -/
def rlpBytes (b : List Byte) : List Byte :=
  match b with
  | [x] => if x.val < 128 then [x] else rlpHeader 0x80 1 ++ [x]
  | _ => rlpHeader 0x80 b.length ++ b

/-- RLP of an unsigned integer: its minimal big-endian bytes as a string. -/
def rlpUint (n : Nat) : List Byte := rlpBytes (natBytes n)

/-- RLP of a list whose items are already encoded. -/
def rlpList (items : List (List Byte)) : List Byte :=
  rlpHeader 0xc0 items.flatten.length ++ items.flatten

/-- RLP of the authorization message `[chainID, contractAddr, nonce]`; the
address is a 20-byte array, encoded as a string. -/
def rlpAuthMessage (chainID : Nat) (contractAddr : Address) (nonce : Nat) : List Byte :=
  rlpList [rlpUint chainID, rlpBytes contractAddr.bytes, rlpUint nonce]

/-- The bytes hashed for an authorization: the magic byte `0x05` followed by
the RLP of the message. -/
def authPreimage (chainID : Nat) (contractAddr : Address) (nonce : Nat) : List Byte :=
  (0x05 : Byte) :: rlpAuthMessage chainID contractAddr nonce

/-! ## `delegation.go` -/

/-- Map lookup with the zero value `false` for a missing key. -/
def mapLookup (m : List (Address × Bool)) (a : Address) : Bool :=
  match m with
  | [] => false
  | (k, v) :: rest => if k = a then v else mapLookup rest a

/-- The method `isKnownContract`. When both keys of a Go map literal are
equal the program does not compile, so the first match decides. -/
def isKnownContract (addr : Address) : Bool :=
  let knownContracts : List (Address × Bool) :=
    [(HexToAddress TokenContract, true), (HexToAddress DelegateContract, true)]
  mapLookup knownContracts addr

/-- The 32-byte array filled by `copy(r32[:], src)`. -/
def copy32 (src : List Byte) : List Byte :=
  (src ++ List.replicate 32 (0 : Byte)).take 32

/-- The method `SignDelegation`; `now` is the reading of `time.Now().Unix()`.
The branch for a failing `rlp.EncodeToBytes` is left out: encoding a list of
a `uint64`, a 20-byte array and a `uint64` cannot fail. -/
def SignDelegation {σ : Type} (C : Crypto) (now : Int) (d : Option (DelegationService σ))
    (contractAddr : Address) (signerPK : Option PrivateKey) (w : World σ) :
    Except Fault Authorization × World σ :=
  match d with
  | none => (.error (.error .notReady), w)
  | some svc =>
  match svc.RPC, svc.ChainID with
  | none, _ => (.error (.error .notReady), w)
  | some _, none => (.error (.error .notReady), w)
  | some rpc, some cid =>
  match signerPK with
  | none => (.error (.error .signerKeyNil), w)
  | some key =>
  if contractAddr = Address.zero then (.error (.error .contractZero), w)
  else
    let signer := C.PubkeyToAddress key
    if !isKnownContract contractAddr then (.error (.error (.unknownContract contractAddr)), w)
    else
      let r := rpcNonceAt rpc signer w
      match r.1 with
      | .error e => (.error (.error (.getNonceFailed signer e)), r.2)
      | .ok nonce =>
        let chainID := bigUint64 cid
        let encoded := rlpAuthMessage chainID contractAddr nonce
        let hash := C.Keccak256 ((0x05 : Byte) :: encoded)
        match C.Sign hash key with
        | .error e => (.error (.error (.signFailed e)), r.2)
        | .ok signature =>
          match signature.get? 64 with
          | none => (.error (.panic "index out of range"), r.2)
          | some v0 =>
            let v := if 27 ≤ v0.val then v0.val - 27 else v0.val
            (.ok
              { ChainID := chainID
                Address := contractAddr
                Nonce := nonce
                V := v
                R := copy32 (signature.take 32)
                S := copy32 ((signature.drop 32).take 32)
                Signer := signer
                CreatedAt := now }, r.2)

/-- The method `validateAuthorization`; a nil authorization is `none`. The
age is computed in `int64`. -/
def validateAuthorization {σ : Type} (now : Int) (d : Option (DelegationService σ))
    (auth : Option Authorization) (w : World σ) : Except Fault Unit × World σ :=
  match auth with
  | none => (.error (.error .authorizationNil), w)
  | some a =>
  if 300 < wrapInt64 (now - a.CreatedAt) then (.error (.error .authorizationTooOld), w)
  else
  match d with
  | none => (.error (.panic "nil pointer dereference"), w)
  | some svc =>
  match svc.ChainID with
  | none => (.error (.panic "nil pointer dereference"), w)
  | some cid =>
  if a.ChainID ≠ bigUint64 cid then (.error (.error .chainIDMismatch), w)
  else
  match svc.RPC with
  | none => (.error (.panic "nil pointer dereference"), w)
  | some rpc =>
    let r := rpcNonceAt rpc a.Signer w
    match r.1 with
    | .error e => (.error (.error (.checkNonceFailed e)), r.2)
    | .ok currentNonce =>
      if a.Nonce ≠ currentNonce then
        (.error (.error (.nonceMismatch currentNonce a.Nonce)), r.2)
      else (.ok (), r.2)

/-- The loop of `validateCalls`: index of the call, running total. -/
def validateCallsLoop : Nat → Int → List Call → Except Fault Int
  | _, total, [] => .ok total
  | i, total, call :: rest =>
    if call.To = Address.zero then .error (.error (.callZeroAddress i))
    else
      match call.Value with
      | some v => validateCallsLoop (i + 1) (total + v) rest
      | none => validateCallsLoop (i + 1) total rest

/-- The cap of `validateCalls`: `10 * 1e18`. -/
def maxValue : Int := 10 * 1000000000000000000

/-- The method `validateCalls`. -/
def validateCalls (calls : List Call) : Except Fault Unit :=
  if calls.length = 0 then .error (.error .noCalls)
  else
    match validateCallsLoop 0 0 calls with
    | .error f => .error f
    | .ok totalValue =>
      if maxValue < totalValue then .error (.error (.totalValueTooHigh totalValue))
      else .ok ()

/-- The method `calculateMulticallGas`, in `uint64` arithmetic. -/
def calculateMulticallGas (calls : List Call) : Nat :=
  (100000 + (calls.length % 2 ^ 64) * 50000 % 2 ^ 64) % 2 ^ 64

/-! ## ABI packing (`accounts/abi`) for the compiled-in interface -/

/-- The bytes of an ASCII string (`[]byte(s)`). -/
def stringBytes (s : String) : List Byte := s.data.map (fun c => byteOfNat c.toNat)

/-- The 4-byte selector `crypto.Keccak256([]byte(sig))[:4]`. -/
def selector (C : Crypto) (sig : String) : List Byte :=
  (C.Keccak256 (stringBytes sig)).take 4

/-- The function `math.U256Bytes` on a number that is not negative: the
32-byte big-endian word of the number modulo `2^256`. -/
def u256Word (n : Nat) : List Byte := fixedBE 32 (n % 2 ^ 256)

/-- The function `packBytesSlice`: length word, then the bytes right-padded
to a multiple of 32. -/
def packBytesSlice (b : List Byte) : List Byte :=
  u256Word b.length ++ RightPadBytes b ((b.length + 31) / 32 * 32)

/-- Packing of one `(bytes data, address to, uint256 value)` tuple: the head
holds the offset of `data` (96), the address word and the value word; the tail
holds `data`. A nil value panics inside the library, a negative one is
refused by the library and `ExecuteCalls` panics on that error. -/
def packCall (c : Call) : Except Fault (List Byte) :=
  match c.Value with
  | none => .error (.panic "nil pointer dereference")
  | some v =>
    if v < 0 then .error (.panic "Failed to pack execute")
    else .ok (u256Word 96 ++ LeftPadBytes c.To.bytes 32 ++ u256Word v.toNat
                ++ packBytesSlice c.Data)

/-- Packing of every call of a list, in order; the first failure wins. -/
def packCalls : List Call → Except Fault (List (List Byte))
  | [] => .ok []
  | c :: cs =>
    match packCall c with
    | .error f => .error f
    | .ok v =>
      match packCalls cs with
      | .error f => .error f
      | .ok vs => .ok (v :: vs)

/-- The offset words of a dynamic array: element `i` starts at `off` plus the
sizes of the elements before it. -/
def packOffsets : Nat → List (List Byte) → List Byte
  | _, [] => []
  | off, v :: vs => u256Word off ++ packOffsets (off + v.length) vs

/-- Packing of a slice of dynamic elements: length, offsets, elements. -/
def packArray (vals : List (List Byte)) : List Byte :=
  u256Word vals.length ++ packOffsets (32 * vals.length) vals ++ vals.flatten

/-- The signature of the multicall entry point. -/
def executeSig : String := "execute((bytes,address,uint256)[])"

/-- The call `simpleDelegateABI.Pack("execute", abiCalls)`: method id, the
offset of the single dynamic argument (32), the packed array. -/
def packExecute (C : Crypto) (calls : List Call) : Except Fault (List Byte) :=
  match packCalls calls with
  | .error f => .error f
  | .ok vals => .ok (selector C executeSig ++ u256Word 32 ++ packArray vals)

/-! ## `calldata.go` -/

/-- The method `Mint`; the amount pointer is not nil. -/
def Mint (C : Crypto) (tokenAddr toAddr : Address) (amount : Int) : String :=
  let sel := selector C "mint(address,address,uint256)"
  let tokenPadded := LeftPadBytes tokenAddr.bytes 32
  let toPadded := LeftPadBytes toAddr.bytes 32
  let amountPadded := LeftPadBytes (bigBytes amount) 32
  hexString (((sel ++ tokenPadded) ++ toPadded) ++ amountPadded)

/-- The method `Transfer`; the amount pointer is not nil. -/
def Transfer (C : Crypto) (tokenAddr toAddr : Address) (amount : Int) : String :=
  let sel := selector C "transfer(address,address,uint256)"
  let tokenPadded := LeftPadBytes tokenAddr.bytes 32
  let toPadded := LeftPadBytes toAddr.bytes 32
  let amountPadded := LeftPadBytes (bigBytes amount) 32
  hexString (((sel ++ tokenPadded) ++ toPadded) ++ amountPadded)

/-- The method `SendETHDirectly`; the amount pointer is not nil. -/
def SendETHDirectly (C : Crypto) (toAddr : Address) (amount : Int) : String :=
  let sel := selector C "sendETH(address,uint256)"
  let addressPadded := LeftPadBytes toAddr.bytes 32
  let amountPadded := LeftPadBytes (bigBytes amount) 32
  hexString ((sel ++ addressPadded) ++ amountPadded)

/-- The method `ExecuteCalls`: panics when packing fails. -/
def ExecuteCalls (C : Crypto) (calls : List Call) : Except Fault String :=
  match packExecute C calls with
  | .error f => .error f
  | .ok data => .ok (hexString data)

/-! ## `ExecuteSponsored` -/

/-- The payload and gas limit chosen by `ExecuteSponsored`. -/
def buildCallData (C : Crypto) (calls : List Call) : Except Fault (List Byte × Nat) :=
  match calls with
  | [c] => .ok (c.Data, if 0 < c.GasLimit then c.GasLimit else 1000000)
  | _ =>
    match ExecuteCalls C calls with
    | .error f => .error f
    | .ok executeData => .ok (Hex2Bytes (trim0x executeData.data), calculateMulticallGas calls)

/-- The authorization list built by `ExecuteSponsored`: `R` and `S` are
read from the 32-byte arrays by `SetBytes`. -/
def buildAuthList (a : Authorization) : List SetCodeAuthorization :=
  [{ ChainID := a.ChainID
     Address := a.Address
     Nonce := a.Nonce
     V := a.V
     R := fromBytesBE a.R % 2 ^ 256
     S := fromBytesBE a.S % 2 ^ 256 }]

/-- The transaction body assembled by `ExecuteSponsored` from what it has
read; each `uint256.MustFromBig` may panic. -/
def assembleSetCodeTx (cid : Int) (sponsorNonce : Nat) (tip : Int) (gasLimit : Nat)
    (a : Authorization) (txData : List Byte) : Except Fault SetCodeTx :=
  match MustFromBig cid with
  | .error f => .error f
  | .ok chainU =>
  match MustFromBig tip with
  | .error f => .error f
  | .ok tipU =>
  match MustFromBig (tip * 3) with
  | .error f => .error f
  | .ok feeU =>
    .ok { ChainID := chainU
          Nonce := sponsorNonce
          GasTipCap := tipU
          GasFeeCap := feeU
          Gas := gasLimit
          To := a.Signer
          Value := 0
          Data := txData
          AuthList := buildAuthList a }

/-- The fee tip used by `ExecuteSponsored`: the client's suggestion, or the
fallback of 2 gwei when the read failed. -/
def tipOrFallback : Except String Int → Int
  | .error _ => 2000000000
  | .ok t => t

/-- The method `ExecuteSponsored`. After both validations have passed the
service, its chain id, its client and the authorization are known not to be
nil; the sponsor key is dereferenced without a check. -/
def ExecuteSponsored {σ : Type} (C : Crypto) (now : Int) (d : Option (DelegationService σ))
    (auth : Option Authorization) (calls : List Call) (sponsorPK : Option PrivateKey)
    (w : World σ) : Except Fault Transaction × World σ :=
  let r1 := validateAuthorization now d auth w
  match r1.1 with
  | .error (.error e) => (.error (.error (.invalidAuthorization e)), r1.2)
  | .error (.panic p) => (.error (.panic p), r1.2)
  | .ok _ =>
  match validateCalls calls with
  | .error (.error e) => (.error (.error (.invalidCalls e)), r1.2)
  | .error (.panic p) => (.error (.panic p), r1.2)
  | .ok _ =>
  match sponsorPK, d, auth with
  | some sk, some ⟨some cid, some rpc⟩, some a =>
    let sponsor := C.PubkeyToAddress sk
    let r2 := rpcNonceAt rpc sponsor r1.2
    match r2.1 with
    | .error e => (.error (.error (.sponsorNonceFailed e)), r2.2)
    | .ok sponsorNonce =>
      let r3 := rpcSuggestGasTipCap rpc r2.2
      let tip : Int := tipOrFallback r3.1
      match buildCallData C calls with
      | .error f => (.error f, r3.2)
      | .ok (txData, gasLimit) =>
        match assembleSetCodeTx cid sponsorNonce tip gasLimit a txData with
        | .error f => (.error f, r3.2)
        | .ok setCodeTx =>
          match C.SignNewTx sk cid setCodeTx with
          | .error e => (.error (.error (.library e)), r3.2)
          | .ok sig => (.ok ⟨setCodeTx, sig⟩, r3.2)
  | _, _, _ => (.error (.panic "nil pointer dereference"), r1.2)

/-! ## ABI decoding of the multicall payload -/

/-- The 32-byte word at a position, as a number. -/
def readWord (bs : List Byte) (pos : Nat) : Option Nat :=
  let w := (bs.drop pos).take 32
  if w.length = 32 then some (fromBytesBE w) else none

/-- The address held in the 32-byte word at a position. -/
def readAddress (bs : List Byte) (pos : Nat) : Option Address :=
  let w := (bs.drop pos).take 32
  if w.length = 32 then some (BytesToAddress w) else none

/-- A length-prefixed byte string at a position. -/
def readBytes (bs : List Byte) (pos : Nat) : Option (List Byte) :=
  match readWord bs pos with
  | none => none
  | some n =>
    let body := (bs.drop (pos + 32)).take n
    if body.length = n then some body else none

/-- A `(bytes, address, uint256)` tuple whose encoding starts at `pos`. -/
def decodeTuple (bs : List Byte) (pos : Nat) : Option (List Byte × Address × Nat) :=
  match readWord bs pos, readAddress bs (pos + 32), readWord bs (pos + 64) with
  | some dataOff, some toAddr, some value =>
    match readBytes bs (pos + dataOff) with
    | some data => some (data, toAddr, value)
    | none => none
  | _, _, _ => none

/-- The elements `i, i+1, ...` (`count` of them) of a dynamic array whose
offset table starts at `base`. -/
def decodeElems (bs : List Byte) (base : Nat) : Nat → Nat → Option (List (List Byte × Address × Nat))
  | _, 0 => some []
  | i, count + 1 =>
    match readWord bs (base + 32 * i) with
    | none => none
    | some off =>
      match decodeTuple bs (base + off), decodeElems bs base (i + 1) count with
      | some t, some ts => some (t :: ts)
      | _, _ => none

/-- The argument block of `execute((bytes,address,uint256)[])`: the offset of
the array, its length, its elements. -/
def decodeExecuteArgs (args : List Byte) : Option (List (List Byte × Address × Nat)) :=
  match readWord args 0 with
  | none => none
  | some off =>
    match readWord args off with
    | none => none
    | some n => decodeElems args (off + 32) 0 n

/-- ABI-decoding of call data against the schema
`execute((bytes,address,uint256)[])`: the selector must match. -/
def decodeExecute (C : Crypto) (input : List Byte) : Option (List (List Byte × Address × Nat)) :=
  if input.take 4 = selector C executeSig then decodeExecuteArgs (input.drop 4) else none

/-- Decoding of the `0x`-prefixed hexadecimal text of call data. -/
def decodeExecuteHex (C : Crypto) (s : String) : Option (List (List Byte × Address × Nat)) :=
  match s.data with
  | '0' :: 'x' :: rest =>
    if (hexDecode rest).2 then decodeExecute C (hexDecode rest).1 else none
  | _ => none

/-! ## Generic call data (`calldata.go`) -/

/-- A value of type `interface{}` as the generic encoder can meet it: a
string, a native signed or unsigned integer, a `*big.Int` that is not nil, an
address, a boolean, a `[]interface{}`, a slice of another type, a
`map[string]interface{}`, a `float64` (by its bits), or nil. -/
inductive Param where
  | str (s : String)
  | int (v : Int)
  | uint (v : Nat)
  | big (v : Int)
  | addr (a : Address)
  | bool (b : Bool)
  | slice (items : List Param)
  | otherSlice
  | obj (fields : List (String × Param))
  | float (bits : Nat)
  | null

/-- The test `isHexCharacter`. -/
def isHexCharacter (c : Char) : Bool := (hexVal c).isSome

/-- The test `has0xPrefix`. -/
def has0xPrefix (s : List Char) : Bool :=
  match s with
  | '0' :: 'x' :: _ => true
  | '0' :: 'X' :: _ => true
  | _ => false

/-- The test `isHex`: an even number of hexadecimal digits. -/
def isHex (s : List Char) : Bool := s.length % 2 = 0 && s.all isHexCharacter

/-- The function `common.IsHexAddress`: forty hexadecimal digits behind an
optional `0x` or `0X`. -/
def IsHexAddress (s : String) : Bool :=
  let t := if has0xPrefix s.data then s.data.drop 2 else s.data
  t.length = 40 && isHex t

/-- Value of a decimal digit. -/
def digitVal (c : Char) : Option Nat :=
  if '0' ≤ c ∧ c ≤ '9' then some (c.toNat - 48) else none

/-- Reads decimal digits up to the end of the text onto an accumulator. -/
def scanDigits : List Char → Nat → Option Nat
  | [], acc => some acc
  | c :: cs, acc =>
    match digitVal c with
    | some d => scanDigits cs (acc * 10 + d)
    | none => none

/-- The call `new(big.Int).SetString(s, 10)`: an optional sign followed by one
decimal digit or more, and nothing else. -/
def SetString10 (s : List Char) : Option Int :=
  match s with
  | [] => none
  | '+' :: rest => if rest = [] then none else (scanDigits rest 0).map Int.ofNat
  | '-' :: rest => if rest = [] then none else (scanDigits rest 0).map (fun n => -(n : Int))
  | c :: rest => (scanDigits (c :: rest) 0).map Int.ofNat

/-- The test `strings.HasPrefix(v, "0x")`. -/
def hasPrefix0x (s : List Char) : Bool :=
  match s with
  | '0' :: 'x' :: _ => true
  | _ => false

/-- The method `encodeParameter`. -/
def encodeParameter (param : Param) : Except Fault (List Byte) :=
  match param with
  | .str v =>
    if IsHexAddress v then .ok (LeftPadBytes (HexToAddress v).bytes 32)
    else
      match SetString10 v.data with
      | some num => .ok (LeftPadBytes (bigBytes num) 32)
      | none =>
        if hasPrefix0x v.data then
          if (hexDecode (v.data.drop 2)).2 then
            .ok (LeftPadBytes (hexDecode (v.data.drop 2)).1 32)
          else .error (.error (.library "encoding/hex"))
        else .error (.error (.unsupportedString v))
  | .int v => .ok (LeftPadBytes (bigBytes v) 32)
  | .uint v => .ok (LeftPadBytes (bigBytes (v : Int)) 32)
  | .big v => .ok (LeftPadBytes (bigBytes v) 32)
  | .addr a => .ok (LeftPadBytes a.bytes 32)
  | .bool b => if b then .ok (LeftPadBytes [1] 32) else .ok (LeftPadBytes [0] 32)
  | .slice _ => .error (.error .arraysNotSupported)
  | _ => .error (.error .unsupportedType)

/-- The method `encodeParameters`. The test
`reflect.TypeOf(param).Kind() == reflect.Slice` dereferences the type of the
parameter, which is nil for a nil parameter. -/
def encodeParameters : List Param → Except Fault (List Byte)
  | [] => .ok []
  | param :: rest =>
    match param with
    | .null => .error (.panic "nil pointer dereference")
    | .slice _ => .error (.error .arraysNotSupportedGeneric)
    | .otherSlice => .error (.error .arraysNotSupportedGeneric)
    | _ =>
      match encodeParameter param with
      | .error f => .error f
      | .ok encoded =>
        match encodeParameters rest with
        | .error f => .error f
        | .ok result => .ok (encoded ++ result)

/-- Lookup in a `map[string]interface{}`; a missing key gives nil. -/
def mapGet (m : List (String × Param)) (k : String) : Option Param :=
  match m with
  | [] => none
  | (k1, v) :: rest => if k1 = k then some v else mapGet rest k

/-- The body of the loop of `buildExecuteCall` for entry `i`. -/
def convertCall (i : Nat) (callInterface : Param) : Except Fault Call :=
  match callInterface with
  | .obj callMap =>
    match mapGet callMap "data" with
    | some (.str dataStr) =>
      match mapGet callMap "to" with
      | some (.str toStr) =>
        match mapGet callMap "value" with
        | some (.str valueStr) =>
          let decoded : List Byte × Bool :=
            if dataStr ≠ "0x" ∧ dataStr ≠ "" then hexDecode (trim0x dataStr.data)
            else ([], true)
          if !decoded.2 then .error (.error (.callInvalidData i))
          else if !IsHexAddress toStr then .error (.error (.callInvalidAddress i toStr))
          else
            match SetString10 valueStr.data with
            | none => .error (.error (.callInvalidValue i valueStr))
            | some value =>
              .ok { Data := decoded.1, To := HexToAddress toStr, Value := some value,
                    GasLimit := 0 }
        | _ => .error (.error (.callValueNotString i))
      | _ => .error (.error (.callToNotString i))
    | _ => .error (.error (.callDataNotString i))
  | _ => .error (.error (.callNotObject i))

/-- The loop of `buildExecuteCall` from entry `i` on: the first failing entry
ends it. -/
def convertCalls : Nat → List Param → Except Fault (List Call)
  | _, [] => .ok []
  | i, p :: rest =>
    match convertCall i p with
    | .error f => .error f
    | .ok call =>
      match convertCalls (i + 1) rest with
      | .error f => .error f
      | .ok calls => .ok (call :: calls)

/-- The method `buildExecuteCall`. -/
def buildExecuteCall (C : Crypto) (params : List Param) : Except Fault String :=
  match params with
  | [p] =>
    match p with
    | .slice arrayParam =>
      match convertCalls 0 arrayParam with
      | .error f => .error f
      | .ok calls => ExecuteCalls C calls
    | _ => .error (.error .executeNotArray)
  | _ => .error (.error .executeParamCount)

/-- The method `BuildGenericCall`. -/
def BuildGenericCall (C : Crypto) (functionSig : String) (params : List Param) :
    Except Fault String :=
  if functionSig = executeSig then buildExecuteCall C params
  else
    let sel := selector C functionSig
    match encodeParameters params with
    | .error f => .error f
    | .ok encodedParams => .ok (hexString (sel ++ encodedParams))

/-! ## Specification-side notions and a stand-in environment -/

/-- The sum of the values of a call list, a nil value counting as zero. -/
def totalValue (calls : List Call) : Int := (calls.map (fun c => c.Value.getD 0)).sum

/-- The packed form of a call tuple whose value is the number `v`. -/
def tupleBytes (c : Call) (v : Nat) : List Byte :=
  u256Word 96 ++ LeftPadBytes c.To.bytes 32 ++ u256Word v ++ packBytesSlice c.Data

/-- The packed form of a call whose value is present and not negative. -/
def encCall (c : Call) : List Byte := tupleBytes c (c.Value.getD 0).toNat

/-- The `(data, to, value)` triple of a call, the value as a number. -/
def callTriple (c : Call) : List Byte × Address × Nat :=
  (c.Data, c.To, (c.Value.getD 0).toNat)

/-- A stand-in for the cryptographic library, used to run the engine on
concrete inputs. It honours the signing contract (65 bytes, recovery id 0,
recovery returns the signing key's address) but is not cryptography. -/
def demoCrypto : Crypto where
  Keccak256 m := fixedBE 32 (fromBytesBE m)
  PubkeyToAddress k := BytesToAddress (fixedBE 32 k.D)
  Sign h k := .ok (fixedBE 32 k.D ++ copy32 h ++ [0])
  Recover _ sig := some (BytesToAddress (sig.take 32))
  SignNewTx k _ _ := .ok (fixedBE 32 k.D ++ fixedBE 32 1 ++ [1])

/-- A scripted chain client without state: a nonce read for address `a`
answers `nonce a`, every fee-tip read answers `tip`. -/
def demoClient (nonce : Address → Nat) (tip : Except String Int) : EthClient Unit where
  NonceAt _ a := (.ok (nonce a), ())
  SuggestGasTipCap _ := (tip, ())

/-- A service on chain 17000 over the scripted client. -/
def demoService (nonce : Address → Nat) (tip : Except String Int) :
    Option (DelegationService Unit) :=
  some ⟨some 17000, some (demoClient nonce tip)⟩

/-- The initial world: no request made yet. -/
def demoWorld : World Unit := ⟨(), []⟩

/-- The address `0xAAAA…AA`. -/
def addrA : Address := ⟨List.replicate 20 0xAA, by decide⟩

/-- The address `0xBBBB…BB`. -/
def addrB : Address := ⟨List.replicate 20 0xBB, by decide⟩

/-- Chain state of the examples: the signer `addrB` has nonce 5, every other
account (the sponsor among them) has nonce 12. -/
def demoNonces : Address → Nat := fun a => if a = addrB then 5 else 12

/-- A fresh authorization by `addrB` for the known delegate, created at time
900, with nonce 5 on chain 17000. -/
def demoAuth : Authorization :=
  { ChainID := 17000
    Address := HexToAddress DelegateContract
    Nonce := 5
    V := 1
    R := fixedBE 32 7
    S := fixedBE 32 9
    Signer := addrB
    CreatedAt := 900 }

/-- A call to `addrA` with empty data, value 0 and no gas override. -/
def demoCall : Call := ⟨addrA, [], some 0, 0⟩

/-- The sponsor key of the examples. -/
def demoSponsor : PrivateKey := ⟨3⟩

/-! ## Arbitrary-precision floating point (`math/big.Float`) -/

/-- Worker of `bitLen`. -/
def bitLenAux : Nat → Nat → Nat
  | 0, _ => 0
  | fuel + 1, n => if n = 0 then 0 else 1 + bitLenAux fuel (n / 2)

/-- Number of bits of a natural number (`big.Int.BitLen`). -/
def bitLen (n : Nat) : Nat := bitLenAux n n

/-- A finite `big.Float`: precision in bits, sign, and the value
`mant · 2^exp`. -/
structure BigFloat where
  prec : Nat
  neg : Bool
  mant : Nat
  exp : Int
deriving DecidableEq

/-- The quotient `a / b` (`b > 0`) rounded to `prec` bits, to nearest and to
even on a tie (the default mode `ToNearestEven`), as mantissa and binary
exponent. With `e` the exponent for which `2^(e-1) ≤ a/b < 2^e`, the
quotient is scaled by `2^(prec-e)` and rounded to an integer. -/
def roundQuo (prec : Nat) (a b : Nat) : Nat × Int :=
  if a = 0 then (0, 0)
  else
    let la := bitLen a
    let lb := bitLen b
    let ge : Bool :=
      if lb ≤ la then decide (b * 2 ^ (la - lb) ≤ a) else decide (b ≤ a * 2 ^ (lb - la))
    let e : Int := (la : Int) - (lb : Int) + (if ge then 1 else 0)
    let t : Int := (prec : Int) - e
    let num := if 0 ≤ t then a * 2 ^ t.toNat else a
    let den := if 0 ≤ t then b else b * 2 ^ (-t).toNat
    let q := num / den
    let r := num % den
    let q1 := if den < 2 * r ∨ (2 * r = den ∧ q % 2 = 1) then q + 1 else q
    (q1, -t)

/-- The digits of a decimal text with at most one radix point: the number
written by all its digits and the count of digits behind the point. At
least one digit is required. -/
def parseDecimalDigits (s : List Char) : Option (Nat × Nat) :=
  let ip := s.takeWhile (fun c => c != '.')
  match s.dropWhile (fun c => c != '.') with
  | [] => if ip = [] then none else (scanDigits ip 0).map (fun m => (m, 0))
  | _ :: fp =>
    if ip = [] ∧ fp = [] then none
    else (scanDigits (ip ++ fp) 0).map (fun m => (m, fp.length))

/-- The call `new(big.Float).SetString(s)` on the modelled fragment of the
accepted syntax: an optional sign and decimal digits with at most one radix
point and at most 55 digits behind it. The receiver has precision 0, so the
precision becomes 64; the library divides the number written by the digits
by the power of ten of the fraction length and rounds once. Text outside the
fragment (exponents, other bases, separators, infinities, longer fractions,
invalid text) gives `none`. -/
def floatSetString (s : List Char) : Option BigFloat :=
  let body : Bool × List Char :=
    match s with
    | '-' :: rest => (true, rest)
    | '+' :: rest => (false, rest)
    | _ => (false, s)
  match parseDecimalDigits body.2 with
  | none => none
  | some (m, k) =>
    if 55 < k then none
    else some ⟨64, body.1, (roundQuo 64 m (10 ^ k)).1, (roundQuo 64 m (10 ^ k)).2⟩

/-- The call `new(big.Float).Mul(x, y)`: the receiver has precision 0, so the
result has the larger of the two precisions; the exact product is rounded to
it. -/
def floatMul (x y : BigFloat) : BigFloat :=
  let prec := max x.prec y.prec
  let r := roundQuo prec (x.mant * y.mant) 1
  ⟨prec, x.neg != y.neg, r.1, r.2 + x.exp + y.exp⟩

/-- The method `(*big.Float).Int(nil)`: truncation toward zero. -/
def floatInt (x : BigFloat) : Int :=
  let a : Nat := if 0 ≤ x.exp then x.mant * 2 ^ x.exp.toNat else x.mant / 2 ^ (-x.exp).toNat
  if x.neg then -(a : Int) else (a : Int)

/-- The call `new(big.Float).SetInt(n)`: exact, with precision the larger of
the bit length of `n` and 64. -/
def floatSetInt (n : Int) : BigFloat := ⟨max (bitLen n.natAbs) 64, decide (n < 0), n.natAbs, 0⟩

/-- The value `big.NewFloat(1e18)`: precision 53, exactly `10^18`. -/
def float1e18 : BigFloat := ⟨53, false, 1000000000000000000, 0⟩

/-- The function `EtherToWei`; `none` when the text is outside the modelled
fragment of `SetString`. -/
def EtherToWei (eth : String) : Option Int :=
  match floatSetString eth.data with
  | none => none
  | some ethFloat => some (floatInt (floatMul ethFloat float1e18))

/-- The function `TokenAmountToWei`; `big.Int.Exp` with an exponent that is
not positive gives 1. `none` when the text is outside the modelled fragment
of `SetString`. -/
def TokenAmountToWei (amount : String) (decimals : Int) : Option Int :=
  match floatSetString amount.data with
  | none => none
  | some amountFloat =>
    let multiplier := floatSetInt (10 ^ decimals.toNat)
    some (floatInt (floatMul amountFloat multiplier))

/-- The base units a decimal text denotes exactly: the number written by its
digits times `10^k`, divided by the power of ten of its fraction length and
truncated. -/
def exactUnits (s : List Char) (k : Nat) : Option Nat :=
  (parseDecimalDigits s).map (fun p => p.1 * 10 ^ k / 10 ^ p.2)

/-! ## Specification-side notions for the generic encoder -/

/-- The number a text of decimal digits denotes. -/
def decimalValue (s : List Char) : Nat :=
  s.foldl (fun acc c => acc * 10 + (c.toNat - 48)) 0

/-- A decimal numeric string: one decimal digit or more, nothing else. -/
def IsDecimalText (s : String) : Prop :=
  s.data ≠ [] ∧ ∀ c ∈ s.data, '0' ≤ c ∧ c ≤ '9'

/-- Valid `data` text of a multicall entry: empty, `0x`, or hexadecimal digits
in pairs behind an optional `0x`. -/
def validDataHex (d : String) : Bool :=
  d = "0x" || d = "" || (hexDecode (trim0x d.data)).2

/-- A well-formed multicall entry, in the words of the specification: an
object whose `data`, `to` and `value` are strings, `data` valid hex, `to` a
valid hex address, `value` a base-10 integer. -/
def entryWellFormed (p : Param) : Bool :=
  match p with
  | .obj m =>
    match mapGet m "data", mapGet m "to", mapGet m "value" with
    | some (.str d), some (.str t), some (.str v) =>
      validDataHex d && IsHexAddress t && (SetString10 v.data).isSome
    | _, _, _ => false
  | _ => false

/-- The entry index an error message names, for the errors of the multicall
path that carry one. -/
def Err.callIndex : Err → Option Nat
  | .callNotObject i => some i
  | .callDataNotString i => some i
  | .callToNotString i => some i
  | .callValueNotString i => some i
  | .callInvalidData i => some i
  | .callInvalidAddress i _ => some i
  | .callInvalidValue i _ => some i
  | _ => none

/-- A parameter outside the kinds the generic encoder supports. -/
def Param.unsupported : Param → Bool
  | .slice _ => true
  | .otherSlice => true
  | .obj _ => true
  | .float _ => true
  | .null => true
  | _ => false

/-- A 33-byte hexadecimal byte string, `0x` followed by 66 digits. -/
def longHexParam : Param :=
  .str "0x010203040506070809101112131415161718192021222324252627282930313233"

/-- A decimal numeric string of exactly forty digits, denoting `10^39`. -/
def fortyDigits : String := "1000000000000000000000000000000000000000"

/-! # Theorems -/

/-! ## Lemmas on bytes -/

theorem length_fixedBE (k n : Nat) : (fixedBE k n).length = k := by
  induction k generalizing n with
  | zero => rfl
  | succ k ih => simp [fixedBE, ih]

theorem foldl_be_acc (bs : List Byte) (a : Nat) :
    bs.foldl (fun acc b => acc * 256 + b.val) a
      = a * 256 ^ bs.length + bs.foldl (fun acc b => acc * 256 + b.val) 0 := by
  induction bs generalizing a with
  | nil => simp
  | cons b bs ih =>
    simp only [List.foldl_cons, List.length_cons]
    rw [ih (a * 256 + b.val), ih (0 * 256 + b.val)]
    ring

theorem fromBytesBE_append (xs ys : List Byte) :
    fromBytesBE (xs ++ ys) = fromBytesBE xs * 256 ^ ys.length + fromBytesBE ys := by
  unfold fromBytesBE
  rw [List.foldl_append, foldl_be_acc]

theorem fromBytesBE_fixedBE (k n : Nat) : fromBytesBE (fixedBE k n) = n % 256 ^ k := by
  induction k generalizing n with
  | zero => simp [fixedBE, fromBytesBE, Nat.mod_one]
  | succ k ih =>
    rw [fixedBE, fromBytesBE_append, ih, pow_succ', Nat.mod_mul]
    simp [fromBytesBE, byteOfNat]
    ring

theorem fromBytesBE_lt (bs : List Byte) : fromBytesBE bs < 256 ^ bs.length := by
  induction bs using List.reverseRecOn with
  | nil => simp [fromBytesBE]
  | append_singleton xs b ih =>
    rw [fromBytesBE_append]
    have hb : fromBytesBE [b] = b.val := by simp [fromBytesBE]
    have := b.isLt
    simp only [List.length_append, List.length_singleton, pow_succ, hb, pow_one, pow_zero] 
    nlinarith

/-! ## Call-set validation -/

theorem validateCallsLoop_ok (calls : List Call) (i : Nat) (t : Int)
    (h : ∀ c ∈ calls, c.To ≠ Address.zero) :
    validateCallsLoop i t calls = .ok (t + totalValue calls) := by
  induction calls generalizing i t with
  | nil => simp [validateCallsLoop, totalValue]
  | cons c cs ih =>
    have hc : c.To ≠ Address.zero := h c (List.mem_cons_self _ _)
    have hcs : ∀ x ∈ cs, x.To ≠ Address.zero := fun x hx => h x (List.mem_cons_of_mem _ hx)
    unfold validateCallsLoop
    rw [if_neg hc]
    cases hv : c.Value with
    | none =>
      simp only [ih _ _ hcs]
      simp [totalValue, hv]
    | some v =>
      simp only [ih _ _ hcs]
      simp [totalValue, hv, add_assoc]

theorem validateCallsLoop_zero (calls : List Call) (i : Nat) (t : Int)
    (h : ∃ c ∈ calls, c.To = Address.zero) :
    ∃ j, validateCallsLoop i t calls = .error (.error (.callZeroAddress j)) := by
  induction calls generalizing i t with
  | nil => simp at h
  | cons c cs ih =>
    unfold validateCallsLoop
    by_cases hc : c.To = Address.zero
    · exact ⟨i, by rw [if_pos hc]⟩
    · rw [if_neg hc]
      have hcs : ∃ x ∈ cs, x.To = Address.zero := by
        obtain ⟨x, hx, hx0⟩ := h
        rcases List.mem_cons.mp hx with rfl | hx'
        · exact absurd hx0 hc
        · exact ⟨x, hx', hx0⟩
      cases c.Value with
      | none => exact ih _ _ hcs
      | some v => exact ih _ _ hcs

theorem validateCalls_ok_iff (calls : List Call) :
    validateCalls calls = .ok () ↔
      calls ≠ [] ∧ (∀ c ∈ calls, c.To ≠ Address.zero) ∧ totalValue calls ≤ 10 * 10 ^ 18 := by
  unfold validateCalls
  by_cases hlen : calls.length = 0
  · have : calls = [] := List.length_eq_zero.mp hlen
    simp [this]
  · have hne : calls ≠ [] := fun h => hlen (by simp [h])
    rw [if_neg hlen]
    by_cases hz : ∀ c ∈ calls, c.To ≠ Address.zero
    · rw [validateCallsLoop_ok calls 0 0 hz]
      simp only [zero_add, maxValue]
      by_cases hcap : (10 * 1000000000000000000 : Int) < totalValue calls
      · rw [if_pos hcap]
        constructor
        · intro h; cases h
        · rintro ⟨_, _, h⟩; norm_num at h; omega
      · rw [if_neg hcap]
        refine ⟨fun _ => ⟨hne, hz, ?_⟩, fun _ => rfl⟩
        norm_num; omega
    · have hz' : ∃ c ∈ calls, c.To = Address.zero := by
        by_contra hcon
        exact hz (fun c hc h0 => hcon ⟨c, hc, h0⟩)
      obtain ⟨j, hj⟩ := validateCallsLoop_zero calls 0 0 hz'
      rw [hj]
      constructor
      · intro h; cases h
      · rintro ⟨_, h, _⟩; exact absurd h hz

/-- C3: `validateCalls` accepts a call list exactly when the list is not
empty, every call has a non-zero `To`, and the sum of the values (nil counting
as zero) is at most `10 * 10^18`. In particular the empty list is rejected,
every list whose sum exceeds the cap is rejected whatever its length, and a
sum equal to the cap is accepted. -/
theorem validateCalls_accepts_iff (calls : List Call) :
    (validateCalls calls = .ok () ↔
      calls ≠ [] ∧ (∀ c ∈ calls, c.To ≠ Address.zero) ∧ totalValue calls ≤ 10 * 10 ^ 18) ∧
    validateCalls [] = .error (.error .noCalls) ∧
    (10 * 10 ^ 18 < totalValue calls → validateCalls calls ≠ .ok ()) ∧
    (calls ≠ [] → (∀ c ∈ calls, c.To ≠ Address.zero) → totalValue calls = 10 * 10 ^ 18 →
      validateCalls calls = .ok ()) := by
  refine ⟨validateCalls_ok_iff calls, rfl, ?_, ?_⟩
  · intro h hok
    have := ((validateCalls_ok_iff calls).mp hok).2.2
    omega
  · intro hne hz hsum
    exact (validateCalls_ok_iff calls).mpr ⟨hne, hz, le_of_eq hsum⟩

/-! ## The allow-list and the preconditions of `SignDelegation` -/

theorem isKnownContract_iff (addr : Address) :
    isKnownContract addr = true ↔
      addr = HexToAddress TokenContract ∨ addr = HexToAddress DelegateContract := by
  unfold isKnownContract
  simp only [mapLookup]
  by_cases h1 : HexToAddress TokenContract = addr
  · simp [h1]
  · by_cases h2 : HexToAddress DelegateContract = addr
    · simp [h2]
    · have h1' : addr ≠ HexToAddress TokenContract := fun h => h1 h.symm
      have h2' : addr ≠ HexToAddress DelegateContract := fun h => h2 h.symm
      simp [h1, h2, h1', h2']

theorem knownContract_ne_zero (addr : Address) (h : isKnownContract addr = true) :
    addr ≠ Address.zero := by
  rcases (isKnownContract_iff addr).mp h with h | h <;> rw [h] <;> decide

/-- C4: `SignDelegation` fails without any request to the chain client (the
world, log included, is returned unchanged) when the service, its client or
its chain id is nil, when the signer key is nil, when the delegate address is
zero, and when the delegate address is not one of the two compiled-in
addresses; the four reasons differ; and the allow-list check passes exactly
for `TokenContract` and `DelegateContract`. -/
theorem SignDelegation_preconditions {σ : Type} (C : Crypto) (now : Int) (w : World σ)
    (contractAddr : Address) (signerPK : Option PrivateKey) :
    SignDelegation C now none contractAddr signerPK w = (.error (.error .notReady), w) ∧
    (∀ cid, SignDelegation C now (some ⟨cid, none⟩) contractAddr signerPK w
        = (.error (.error .notReady), w)) ∧
    (∀ rpc, SignDelegation C now (some ⟨none, rpc⟩) contractAddr signerPK w
        = (.error (.error .notReady), w)) ∧
    (∀ cid rpc, SignDelegation C now (some ⟨some cid, some rpc⟩) contractAddr none w
        = (.error (.error .signerKeyNil), w)) ∧
    (∀ cid rpc key, SignDelegation C now (some ⟨some cid, some rpc⟩) Address.zero (some key) w
        = (.error (.error .contractZero), w)) ∧
    (∀ cid rpc key, contractAddr ≠ Address.zero →
        contractAddr ≠ HexToAddress TokenContract →
        contractAddr ≠ HexToAddress DelegateContract →
        SignDelegation C now (some ⟨some cid, some rpc⟩) contractAddr (some key) w
          = (.error (.error (.unknownContract contractAddr)), w)) ∧
    (isKnownContract contractAddr = true ↔
        contractAddr = HexToAddress TokenContract ∨
        contractAddr = HexToAddress DelegateContract) ∧
    [Err.notReady.reason, Err.signerKeyNil.reason, Err.contractZero.reason,
      (Err.unknownContract contractAddr).reason].Nodup := by
  refine ⟨rfl, ?_, ?_, ?_, ?_, ?_, isKnownContract_iff contractAddr, by simp only [Err.reason]; decide⟩
  · intro cid
    cases cid <;> rfl
  · intro rpc
    cases rpc <;> rfl
  · intro cid rpc
    rfl
  · intro cid rpc key
    simp [SignDelegation]
  · intro cid rpc key h0 h1 h2
    have hk : isKnownContract contractAddr = false := by
      cases hk : isKnownContract contractAddr with
      | false => rfl
      | true =>
        rcases (isKnownContract_iff contractAddr).mp hk with h | h
        · exact absurd h h1
        · exact absurd h h2
    simp [SignDelegation, h0, hk]

/-! ## Authorization validation -/

theorem wrapInt64_of_range (z : Int) (h1 : -(2 ^ 63) ≤ z) (h2 : z < 2 ^ 63) :
    wrapInt64 z = z := by
  unfold wrapInt64
  rw [Int.emod_eq_of_lt (by omega) (by omega)]
  omega

/-- The checks of `validateAuthorization` on an initialised service, in the
order of the source. Each failure before the nonce read returns the world
unchanged; the age is the `int64` difference, which is the true difference
whenever that fits in 64 bits. -/
theorem validateAuthorization_cases {σ : Type} (now : Int) (cid : Int) (rpc : EthClient σ)
    (w : World σ) :
    validateAuthorization now (some ⟨some cid, some rpc⟩) none w
        = (.error (.error .authorizationNil), w) ∧
    (∀ a, 300 < wrapInt64 (now - a.CreatedAt) →
      validateAuthorization now (some ⟨some cid, some rpc⟩) (some a) w
        = (.error (.error .authorizationTooOld), w)) ∧
    (∀ a, wrapInt64 (now - a.CreatedAt) ≤ 300 → a.ChainID ≠ bigUint64 cid →
      validateAuthorization now (some ⟨some cid, some rpc⟩) (some a) w
        = (.error (.error .chainIDMismatch), w)) ∧
    (∀ a e, wrapInt64 (now - a.CreatedAt) ≤ 300 → a.ChainID = bigUint64 cid →
      (rpc.NonceAt w.st a.Signer).1 = .error e →
      validateAuthorization now (some ⟨some cid, some rpc⟩) (some a) w
        = (.error (.error (.checkNonceFailed e)),
            ⟨(rpc.NonceAt w.st a.Signer).2, w.log ++ [.nonceAt a.Signer]⟩)) ∧
    (∀ a n, wrapInt64 (now - a.CreatedAt) ≤ 300 → a.ChainID = bigUint64 cid →
      (rpc.NonceAt w.st a.Signer).1 = .ok n → a.Nonce ≠ n →
      validateAuthorization now (some ⟨some cid, some rpc⟩) (some a) w
        = (.error (.error (.nonceMismatch n a.Nonce)),
            ⟨(rpc.NonceAt w.st a.Signer).2, w.log ++ [.nonceAt a.Signer]⟩)) ∧
    (∀ a, wrapInt64 (now - a.CreatedAt) ≤ 300 → a.ChainID = bigUint64 cid →
      (rpc.NonceAt w.st a.Signer).1 = .ok a.Nonce →
      validateAuthorization now (some ⟨some cid, some rpc⟩) (some a) w
        = (.ok (), ⟨(rpc.NonceAt w.st a.Signer).2, w.log ++ [.nonceAt a.Signer]⟩)) ∧
    [Err.authorizationNil.reason, Err.authorizationTooOld.reason, Err.chainIDMismatch.reason,
      (Err.checkNonceFailed "").reason, (Err.nonceMismatch 0 0).reason].Nodup := by
  refine ⟨rfl, ?_, ?_, ?_, ?_, ?_, by decide⟩
  · intro a h
    simp [validateAuthorization, h]
  · intro a h hc
    simp [validateAuthorization, not_lt.mpr h, hc]
  · intro a e h hc hn
    simp [validateAuthorization, not_lt.mpr h, hc, rpcNonceAt, hn]
  · intro a n h hc hn hne
    simp [validateAuthorization, not_lt.mpr h, hc, rpcNonceAt, hn, hne]
  · intro a h hc hn
    simp [validateAuthorization, not_lt.mpr h, hc, rpcNonceAt, hn]

/-- C2 (failing input): at time 1700000000 an authorization created at
`-2^63` is more than 300 seconds old, yet the `int64` difference wraps to a
negative number and the authorization passes validation. -/
theorem validateAuthorization_int64_wrap :
    (validateAuthorization 1700000000 (demoService (fun _ => 5) (.ok 1000000000))
        (some ⟨17000, HexToAddress DelegateContract, 5, 0, [], [], addrA,
          -9223372036854775808⟩) demoWorld).1 = .ok () ∧
      (300 : Int) < 1700000000 - (-9223372036854775808) := by
  constructor
  · rfl
  · decide

/-! ## Signing a delegation -/

theorem copy32_of_length (l : List Byte) (h : l.length = 32) : copy32 l = l := by
  unfold copy32
  exact List.take_left' h

theorem sig_split (sig : List Byte) (v0 : Byte) (hlen : sig.length = 65)
    (hv : sig.get? 64 = some v0) :
    sig.take 32 ++ (sig.drop 32).take 32 ++ [v0] = sig := by
  have h3 : sig.drop 64 = [v0] := by
    have hl : (sig.drop 64).length = 1 := by simp [hlen]
    obtain ⟨x, hx⟩ := List.length_eq_one.mp hl
    have : sig.get? 64 = some x := by
      have := congrArg List.head? hx
      simpa [List.head?_drop] using this
    rw [hv] at this
    cases this
    exact hx
  calc sig.take 32 ++ (sig.drop 32).take 32 ++ [v0]
      = sig.take 32 ++ ((sig.drop 32).take 32 ++ (sig.drop 32).drop 32) := by
        rw [List.drop_drop, List.append_assoc, h3]
    _ = sig := by rw [List.take_append_drop, List.take_append_drop]

theorem byteOfNat_val (b : Byte) : byteOfNat b.val = b := by
  apply Fin.ext
  simp [byteOfNat, Nat.mod_eq_of_lt b.isLt]

/-- C1: on an initialised service whose chain id `cid` is a `uint64`, with a
signer key the library can sign with and an allow-listed delegate, when the
client reports nonce `n` for the signer address, `SignDelegation` returns an
authorization with that chain id, the delegate, nonce `n`, the address of the
key as signer, and `R ‖ S ‖ V` equal to the library signature over
`keccak256(0x05 ‖ rlp([cid, delegate, n]))`, with `V` 0 or 1; recovering that
signature over that hash gives the signer address. Exactly one request, the
nonce read, is made. -/
theorem SignDelegation_signs {σ : Type} (C : Crypto) (now : Int) (cid : Int)
    (rpc : EthClient σ) (key : PrivateKey) (contractAddr : Address) (w : World σ)
    (n : Nat) (sig : List Byte)
    (hC : C.SignContract) (hcid0 : 0 ≤ cid) (hcid : cid < 2 ^ 64)
    (hknown : contractAddr = HexToAddress TokenContract ∨
      contractAddr = HexToAddress DelegateContract)
    (hnonce : (rpc.NonceAt w.st (C.PubkeyToAddress key)).1 = .ok n)
    (hsig : C.Sign (C.Keccak256 (authPreimage cid.toNat contractAddr n)) key = .ok sig) :
    ∃ a : Authorization,
      SignDelegation C now (some ⟨some cid, some rpc⟩) contractAddr (some key) w
        = (.ok a, ⟨(rpc.NonceAt w.st (C.PubkeyToAddress key)).2,
            w.log ++ [.nonceAt (C.PubkeyToAddress key)]⟩) ∧
      (a.ChainID : Int) = cid ∧ a.Address = contractAddr ∧ a.Nonce = n ∧
      a.Signer = C.PubkeyToAddress key ∧ a.CreatedAt = now ∧
      a.R.length = 32 ∧ a.S.length = 32 ∧ a.V ≤ 1 ∧
      a.R ++ a.S ++ [byteOfNat a.V] = sig ∧
      C.Recover (C.Keccak256 (authPreimage a.ChainID a.Address a.Nonce))
        (a.R ++ a.S ++ [byteOfNat a.V]) = some a.Signer := by
  have hk : isKnownContract contractAddr = true := (isKnownContract_iff contractAddr).mpr hknown
  have h0 : contractAddr ≠ Address.zero := knownContract_ne_zero contractAddr hk
  have hu : bigUint64 cid = cid.toNat := by
    unfold bigUint64
    have : cid.natAbs = cid.toNat := by omega
    rw [this]
    apply Nat.mod_eq_of_lt
    omega
  have hlen := hC.length _ _ _ hsig
  obtain ⟨v0, hv0⟩ : ∃ v0, sig.get? 64 = some v0 := by
    have : 64 < sig.length := by omega
    exact ⟨sig.get ⟨64, this⟩, List.get?_eq_get this⟩
  have hv1 : v0.val ≤ 1 := hC.recid _ _ _ hsig v0 hv0
  have hv27 : ¬ 27 ≤ v0.val := by omega
  have hR : copy32 (sig.take 32) = sig.take 32 :=
    copy32_of_length _ (by simp [hlen])
  have hS : copy32 ((sig.drop 32).take 32) = (sig.drop 32).take 32 :=
    copy32_of_length _ (by simp [hlen])
  have hsplit := sig_split sig v0 hlen hv0
  have hsig' : C.Sign (C.Keccak256 ((5 : Byte) :: rlpAuthMessage cid.toNat contractAddr n)) key
      = .ok sig := hsig
  refine ⟨{ ChainID := cid.toNat, Address := contractAddr, Nonce := n, V := v0.val,
            R := sig.take 32, S := (sig.drop 32).take 32,
            Signer := C.PubkeyToAddress key, CreatedAt := now }, ?_, ?_, rfl, rfl, rfl, rfl,
          ?_, ?_, hv1, ?_, ?_⟩
  · simp only [SignDelegation, h0, hk, rpcNonceAt, hnonce, hu, hsig', hv0, hv27, hR, hS]
    simp
  · simp only [Int.toNat_of_nonneg hcid0]
  · simp [hlen]
  · simp [hlen]
  · simp only [byteOfNat_val]
    exact hsplit
  · simp only [byteOfNat_val, hsplit]
    exact hC.recover _ _ _ hsig

theorem demoCrypto_signContract : demoCrypto.SignContract where
  length := by
    intro h k sig hs
    simp only [demoCrypto, Except.ok.injEq] at hs
    subst hs
    simp [length_fixedBE, copy32]
  recid := by
    intro h k sig hs v hv
    simp only [demoCrypto, Except.ok.injEq] at hs
    subst hs
    have h64 : (fixedBE 32 k.D ++ copy32 h).length = 64 := by simp [length_fixedBE, copy32]
    rw [List.get?_eq_getElem?, List.getElem?_append_right (by omega)] at hv
    simp [h64] at hv
    subst hv
    decide
  recover := by
    intro h k sig hs
    simp only [demoCrypto, Except.ok.injEq] at hs
    subst hs
    simp only [demoCrypto]
    rw [List.append_assoc, List.take_left' (length_fixedBE 32 k.D)]

/-- C1 witness: signer nonce 5 on chain 17000 with the known delegate. -/
theorem SignDelegation_signs_witness :
    ∃ a : Authorization,
      (SignDelegation demoCrypto 1000 (demoService (fun _ => 5) (.ok 1000000000))
        (HexToAddress DelegateContract) (some ⟨7⟩) demoWorld).1 = .ok a ∧
      a.Nonce = 5 ∧ a.ChainID = 17000 ∧ a.V ≤ 1 ∧
      demoCrypto.Recover (demoCrypto.Keccak256 (authPreimage 17000 a.Address 5))
        (a.R ++ a.S ++ [byteOfNat a.V]) = some (demoCrypto.PubkeyToAddress ⟨7⟩) := by
  obtain ⟨a, hrun, hc, ha, hn, hs, _, _, _, hv, _, hrec⟩ :=
    SignDelegation_signs demoCrypto 1000 17000 (demoClient (fun _ => 5) (.ok 1000000000)) ⟨7⟩
      (HexToAddress DelegateContract) demoWorld 5 _ demoCrypto_signContract
      (by decide) (by decide) (Or.inr rfl) rfl rfl
  have hc' : a.ChainID = 17000 := by exact_mod_cast hc
  refine ⟨a, ?_, hn, hc', hv, ?_⟩
  · exact congrArg Prod.fst hrun
  · rw [hc', hn, hs] at hrec
    exact hrec

/-! ## The sponsored transaction -/

theorem assembleSetCodeTx_ok (cid : Int) (sponsorNonce : Nat) (tip : Int) (gasLimit : Nat)
    (a : Authorization) (txData : List Byte) (body : SetCodeTx)
    (h : assembleSetCodeTx cid sponsorNonce tip gasLimit a txData = .ok body) :
    MustFromBig cid = .ok body.ChainID ∧ MustFromBig tip = .ok body.GasTipCap ∧
    MustFromBig (tip * 3) = .ok body.GasFeeCap ∧ body.Nonce = sponsorNonce ∧
    body.Gas = gasLimit ∧ body.To = a.Signer ∧ body.Value = 0 ∧ body.Data = txData ∧
    body.AuthList = buildAuthList a := by
  unfold assembleSetCodeTx at h
  cases hc : MustFromBig cid with
  | error f => simp [hc] at h
  | ok c =>
    cases ht : MustFromBig tip with
    | error f => simp [hc, ht] at h
    | ok t =>
      cases hf : MustFromBig (tip * 3) with
      | error f => simp [hc, ht, hf] at h
      | ok fee =>
        simp only [hc, ht, hf, Except.ok.injEq] at h
        subst h
        exact ⟨rfl, rfl, rfl, rfl, rfl, rfl, rfl, rfl, rfl⟩

/-- `ExecuteSponsored` returns a transaction exactly when the service is
initialised, both validations pass, the sponsor key is present, the sponsor
nonce read succeeds, the payload builds, the body assembles and the library
signs it; the transaction is that body with that signature. -/
theorem ExecuteSponsored_ok {σ : Type} (C : Crypto) (now : Int)
    (d : Option (DelegationService σ)) (auth : Option Authorization) (calls : List Call)
    (sponsorPK : Option PrivateKey) (w : World σ) (tx : Transaction) :
    (ExecuteSponsored C now d auth calls sponsorPK w).1 = .ok tx ↔
    ∃ sk cid rpc a sponsorNonce txData gasLimit,
      sponsorPK = some sk ∧ d = some ⟨some cid, some rpc⟩ ∧ auth = some a ∧
      (validateAuthorization now d auth w).1 = .ok () ∧
      validateCalls calls = .ok () ∧
      (rpcNonceAt rpc (C.PubkeyToAddress sk) (validateAuthorization now d auth w).2).1
        = .ok sponsorNonce ∧
      buildCallData C calls = .ok (txData, gasLimit) ∧
      assembleSetCodeTx cid sponsorNonce
        (tipOrFallback (rpcSuggestGasTipCap rpc
          (rpcNonceAt rpc (C.PubkeyToAddress sk) (validateAuthorization now d auth w).2).2).1)
        gasLimit a txData = .ok tx.inner ∧
      C.SignNewTx sk cid tx.inner = .ok tx.sig := by
  constructor
  · intro h
    unfold ExecuteSponsored at h
    simp only at h
    split at h
    · cases h
    · cases h
    · rename_i u hva
      split at h
      · cases h
      · cases h
      · rename_i u2 hvc
        split at h
        · rename_i sk cid rpc a
          split at h
          · cases h
          · rename_i sponsorNonce hn
            split at h
            · cases h
            · rename_i txData gasLimit hb
              split at h
              · cases h
              · rename_i body hbody
                split at h
                · cases h
                · rename_i sg hsg
                  simp only [Except.ok.injEq] at h
                  subst h
                  exact ⟨sk, cid, rpc, a, sponsorNonce, txData, gasLimit, rfl, rfl, rfl, hva,
                    hvc, hn, hb, hbody, hsg⟩
        · cases h
  · rintro ⟨sk, cid, rpc, a, sponsorNonce, txData, gasLimit, rfl, rfl, rfl, hva, hvc, hn, hb,
      hbody, hsg⟩
    unfold ExecuteSponsored
    simp only [hva, hvc, hn, hb, hbody, hsg]

theorem buildCallData_ok (C : Crypto) (calls : List Call) (txData : List Byte) (gasLimit : Nat)
    (h : buildCallData C calls = .ok (txData, gasLimit)) :
    (∀ c, calls = [c] →
      txData = c.Data ∧ gasLimit = if 0 < c.GasLimit then c.GasLimit else 1000000) ∧
    (calls.length ≠ 1 → ∃ s, ExecuteCalls C calls = .ok s ∧
      txData = Hex2Bytes (trim0x s.data) ∧ gasLimit = calculateMulticallGas calls) := by
  constructor
  · intro c hc
    subst hc
    simp only [buildCallData, Except.ok.injEq, Prod.mk.injEq] at h
    exact ⟨h.1.symm, h.2.symm⟩
  · intro hlen
    unfold buildCallData at h
    split at h
    · simp at hlen
    · cases he : ExecuteCalls C calls with
      | error f => simp [he] at h
      | ok s =>
        simp only [he, Except.ok.injEq, Prod.mk.injEq] at h
        exact ⟨s, rfl, h.1.symm, h.2.symm⟩

theorem hexVal_hexDigit (n : Nat) (h : n < 16) : hexVal (hexDigit n) = some n := by
  interval_cases n <;> decide

theorem hexDecode_hexEncode (bs : List Byte) : hexDecode (hexEncode bs) = (bs, true) := by
  induction bs with
  | nil => rfl
  | cons b bs ih =>
    have h1 : hexVal (hexDigit (b.val / 16)) = some (b.val / 16) :=
      hexVal_hexDigit _ (by have := b.isLt; omega)
    have h2 : hexVal (hexDigit (b.val % 16)) = some (b.val % 16) :=
      hexVal_hexDigit _ (Nat.mod_lt _ (by decide))
    have h3 : byteOfNat (b.val / 16 * 16 + b.val % 16) = b := by
      rw [Nat.div_add_mod']
      exact byteOfNat_val b
    simp only [hexEncode, hexDecode, h1, h2, ih, h3]

theorem Hex2Bytes_hexString (data : List Byte) :
    Hex2Bytes (trim0x (hexString data).data) = data := by
  show (hexDecode (hexEncode data)).1 = data
  rw [hexDecode_hexEncode]

theorem ExecuteCalls_ok (C : Crypto) (calls : List Call) (s : String)
    (h : ExecuteCalls C calls = .ok s) :
    ∃ data, packExecute C calls = .ok data ∧ s = hexString data := by
  unfold ExecuteCalls at h
  cases hp : packExecute C calls with
  | error f => simp [hp] at h
  | ok data =>
    simp only [hp, Except.ok.injEq] at h
    exact ⟨data, rfl, h.symm⟩

theorem MustFromBig_nonneg (t : Int) (u : Nat) (h0 : 0 ≤ t) (h : MustFromBig t = .ok u) :
    (u : Int) = t := by
  unfold MustFromBig at h
  split at h
  · cases h
  · rw [if_neg (by omega)] at h
    simp only [Except.ok.injEq] at h
    omega

/-- C5: whenever `ExecuteSponsored` returns a transaction, both validations
have passed and the transaction has the sponsor nonce read from the client
(in the state left by validation) as nonce, the authorization signer as `To`,
value 0, and an authorization list of exactly one entry carrying the chain id,
address, nonce and `V` of the authorization and the numbers held in its `R`
and `S` arrays. -/
theorem ExecuteSponsored_fields {σ : Type} (C : Crypto) (now : Int)
    (d : Option (DelegationService σ)) (auth : Option Authorization) (calls : List Call)
    (sponsorPK : Option PrivateKey) (w : World σ) (tx : Transaction)
    (h : (ExecuteSponsored C now d auth calls sponsorPK w).1 = .ok tx) :
    ∃ sk cid rpc a m,
      sponsorPK = some sk ∧ d = some ⟨some cid, some rpc⟩ ∧ auth = some a ∧
      (validateAuthorization now d auth w).1 = .ok () ∧ validateCalls calls = .ok () ∧
      (rpc.NonceAt (validateAuthorization now d auth w).2.st (C.PubkeyToAddress sk)).1
        = .ok m ∧
      tx.inner.Nonce = m ∧ tx.inner.To = a.Signer ∧ tx.inner.Value = 0 ∧
      tx.inner.AuthList =
        [{ ChainID := a.ChainID, Address := a.Address, Nonce := a.Nonce, V := a.V,
           R := fromBytesBE a.R % 2 ^ 256, S := fromBytesBE a.S % 2 ^ 256 }] ∧
      (a.R.length = 32 → fromBytesBE a.R % 2 ^ 256 = fromBytesBE a.R) ∧
      (a.S.length = 32 → fromBytesBE a.S % 2 ^ 256 = fromBytesBE a.S) := by
  obtain ⟨sk, cid, rpc, a, m, txData, gasLimit, hsk, hd, ha, hva, hvc, hn, _, hbody, _⟩ :=
    (ExecuteSponsored_ok C now d auth calls sponsorPK w tx).mp h
  obtain ⟨_, _, _, hN, _, hTo, hV, _, hL⟩ := assembleSetCodeTx_ok _ _ _ _ _ _ _ hbody
  have hword : ∀ bs : List Byte, bs.length = 32 → fromBytesBE bs % 2 ^ 256 = fromBytesBE bs := by
    intro bs hbs
    apply Nat.mod_eq_of_lt
    have := fromBytesBE_lt bs
    rw [hbs] at this
    calc fromBytesBE bs < 256 ^ 32 := this
      _ = 2 ^ 256 := by norm_num
  exact ⟨sk, cid, rpc, a, m, hsk, hd, ha, hva, hvc, hn, hN, hTo, hV, hL, hword _, hword _⟩

/-- C5 witness: a single call with empty data under a fresh authorization and
a sponsor whose nonce is 12 gives a transaction with nonce 12, value 0 and
the signer as destination. -/
theorem ExecuteSponsored_fields_witness :
    ∃ tx, (ExecuteSponsored demoCrypto 1000 (demoService demoNonces (.ok 1000000000))
        (some demoAuth) [demoCall] (some demoSponsor) demoWorld).1 = .ok tx ∧
      tx.inner.Nonce = 12 ∧ tx.inner.To = addrB ∧ tx.inner.Value = 0 ∧
      tx.inner.AuthList.length = 1 := by
  refine ⟨_, rfl, ?_⟩
  obtain ⟨sk, cid, rpc, a, m, hsk, hd, ha, _, _, hn, hN, hTo, hV, hL, _, _⟩ :=
    ExecuteSponsored_fields demoCrypto 1000 (demoService demoNonces (.ok 1000000000))
      (some demoAuth) [demoCall] (some demoSponsor) demoWorld _ rfl
  exact ⟨by decide, by decide, by decide, by decide⟩

/-- C6: whenever `ExecuteSponsored` returns a transaction, its gas limit is
the call's `GasLimit` for one call with a positive `GasLimit`, 1,000,000 for
one call without, and `100,000 + 50,000·n` for `n ≥ 2` calls (no `uint64`
overflow, which needs more than `3·10^14` calls), whatever the per-call
`GasLimit` values. -/
theorem ExecuteSponsored_gas {σ : Type} (C : Crypto) (now : Int)
    (d : Option (DelegationService σ)) (auth : Option Authorization) (calls : List Call)
    (sponsorPK : Option PrivateKey) (w : World σ) (tx : Transaction)
    (h : (ExecuteSponsored C now d auth calls sponsorPK w).1 = .ok tx) :
    validateCalls calls = .ok () ∧
    (∀ c, calls = [c] → 0 < c.GasLimit → tx.inner.Gas = c.GasLimit) ∧
    (∀ c, calls = [c] → c.GasLimit = 0 → tx.inner.Gas = 1000000) ∧
    (2 ≤ calls.length → 100000 + 50000 * calls.length < 2 ^ 64 →
      tx.inner.Gas = 100000 + 50000 * calls.length) := by
  obtain ⟨sk, cid, rpc, a, m, txData, gasLimit, _, _, _, _, hvc, _, hb, hbody, _⟩ :=
    (ExecuteSponsored_ok C now d auth calls sponsorPK w tx).mp h
  obtain ⟨_, _, _, _, hG, _⟩ := assembleSetCodeTx_ok _ _ _ _ _ _ _ hbody
  obtain ⟨h1, h2⟩ := buildCallData_ok C calls txData gasLimit hb
  refine ⟨hvc, ?_, ?_, ?_⟩
  · intro c hc hpos
    rw [hG, (h1 c hc).2, if_pos hpos]
  · intro c hc hz
    rw [hG, (h1 c hc).2, if_neg (by omega)]
  · intro hlen hbound
    obtain ⟨s, _, _, hg⟩ := h2 (by omega)
    rw [hG, hg]
    unfold calculateMulticallGas
    omega

/-- C6 witness: three calls give a gas limit of 250,000. -/
theorem ExecuteSponsored_gas_witness :
    ∃ tx, (ExecuteSponsored demoCrypto 1000 (demoService demoNonces (.ok 1000000000))
        (some demoAuth) [demoCall, ⟨addrA, [1, 2, 3], some 5, 77⟩, demoCall]
        (some demoSponsor) demoWorld).1 = .ok tx ∧
      tx.inner.Gas = 250000 := by
  refine ⟨_, rfl, ?_⟩
  exact (ExecuteSponsored_gas demoCrypto 1000 (demoService demoNonces (.ok 1000000000))
    (some demoAuth) [demoCall, ⟨addrA, [1, 2, 3], some 5, 77⟩, demoCall]
    (some demoSponsor) demoWorld _ rfl).2.2.2 (by decide) (by decide)

/-- C7: whenever `ExecuteSponsored` returns a transaction, its data is the
single call's data unchanged when there is exactly one call, and otherwise
(two calls or more) the bytes denoted by the text `ExecuteCalls` returns for
the whole list, which are the packed `execute` call of the list in order. -/
theorem ExecuteSponsored_data {σ : Type} (C : Crypto) (now : Int)
    (d : Option (DelegationService σ)) (auth : Option Authorization) (calls : List Call)
    (sponsorPK : Option PrivateKey) (w : World σ) (tx : Transaction)
    (h : (ExecuteSponsored C now d auth calls sponsorPK w).1 = .ok tx) :
    validateCalls calls = .ok () ∧
    (∀ c, calls = [c] → tx.inner.Data = c.Data) ∧
    (2 ≤ calls.length → ∃ s, ExecuteCalls C calls = .ok s ∧
      tx.inner.Data = Hex2Bytes (trim0x s.data) ∧ s = hexString tx.inner.Data ∧
      packExecute C calls = .ok tx.inner.Data) := by
  obtain ⟨sk, cid, rpc, a, m, txData, gasLimit, _, _, _, _, hvc, _, hb, hbody, _⟩ :=
    (ExecuteSponsored_ok C now d auth calls sponsorPK w tx).mp h
  obtain ⟨_, _, _, _, _, _, _, hD, _⟩ := assembleSetCodeTx_ok _ _ _ _ _ _ _ hbody
  obtain ⟨h1, h2⟩ := buildCallData_ok C calls txData gasLimit hb
  refine ⟨hvc, ?_, ?_⟩
  · intro c hc
    rw [hD, (h1 c hc).1]
  · intro hlen
    obtain ⟨s, hs, hdata, _⟩ := h2 (by omega)
    obtain ⟨data, hp, hsd⟩ := ExecuteCalls_ok C calls s hs
    have hx : txData = data := by rw [hdata, hsd, Hex2Bytes_hexString]
    refine ⟨s, hs, ?_, ?_, ?_⟩
    · rw [hD, hdata]
    · rw [hD, hx, hsd]
    · rw [hD, hx, hp]

/-- C7 witness: for three calls the data is the packed multicall, and for one
call it is the call's own data. -/
theorem ExecuteSponsored_data_witness :
    (∃ tx, (ExecuteSponsored demoCrypto 1000 (demoService demoNonces (.ok 1000000000))
        (some demoAuth) [demoCall, ⟨addrA, [1, 2, 3], some 5, 77⟩, demoCall]
        (some demoSponsor) demoWorld).1 = .ok tx ∧
      packExecute demoCrypto [demoCall, ⟨addrA, [1, 2, 3], some 5, 77⟩, demoCall]
        = .ok tx.inner.Data) ∧
    (∃ tx, (ExecuteSponsored demoCrypto 1000 (demoService demoNonces (.ok 1000000000))
        (some demoAuth) [⟨addrA, [1, 2, 3], some 5, 77⟩]
        (some demoSponsor) demoWorld).1 = .ok tx ∧ tx.inner.Data = [1, 2, 3]) := by
  constructor
  · refine ⟨_, rfl, ?_⟩
    obtain ⟨s, _, _, _, hp⟩ :=
      (ExecuteSponsored_data demoCrypto 1000 (demoService demoNonces (.ok 1000000000))
        (some demoAuth) [demoCall, ⟨addrA, [1, 2, 3], some 5, 77⟩, demoCall]
        (some demoSponsor) demoWorld _ rfl).2.2 (by decide)
    exact hp
  · refine ⟨_, rfl, ?_⟩
    exact (ExecuteSponsored_data demoCrypto 1000 (demoService demoNonces (.ok 1000000000))
        (some demoAuth) [⟨addrA, [1, 2, 3], some 5, 77⟩]
        (some demoSponsor) demoWorld _ rfl).2.1 _ rfl

theorem MustFromBig_of_range (t : Int) (h0 : 0 ≤ t) (h1 : t < 2 ^ 256) :
    MustFromBig t = .ok t.toNat := by
  unfold MustFromBig
  have ha : t.natAbs = t.toNat := by omega
  rw [if_neg (by omega), if_neg (by omega), ha]

theorem assembleSetCodeTx_of_ok (cid : Int) (sponsorNonce : Nat) (tip : Int) (gasLimit : Nat)
    (a : Authorization) (txData : List Byte) (chainU tipU feeU : Nat)
    (hc : MustFromBig cid = .ok chainU) (ht : MustFromBig tip = .ok tipU)
    (hf : MustFromBig (tip * 3) = .ok feeU) :
    assembleSetCodeTx cid sponsorNonce tip gasLimit a txData =
      .ok { ChainID := chainU, Nonce := sponsorNonce, GasTipCap := tipU, GasFeeCap := feeU,
            Gas := gasLimit, To := a.Signer, Value := 0, Data := txData,
            AuthList := buildAuthList a } := by
  simp only [assembleSetCodeTx, hc, ht, hf]

/-- C8: in every transaction `ExecuteSponsored` returns, the tip is the
client's suggestion when the tip read (made after the sponsor nonce read)
succeeds with a suggestion that is not negative, and 2,000,000,000 when the
read fails, and the fee cap is three times the tip. A failed tip read does
not fail the build: when everything else succeeds, the transaction with tip
2,000,000,000 and fee cap 6,000,000,000 is returned. -/
theorem ExecuteSponsored_fees {σ : Type} (C : Crypto) (now : Int)
    (d : Option (DelegationService σ)) (auth : Option Authorization) (calls : List Call)
    (sponsorPK : Option PrivateKey) (w : World σ) :
    (∀ tx, (ExecuteSponsored C now d auth calls sponsorPK w).1 = .ok tx →
      ∃ sk cid rpc, sponsorPK = some sk ∧ d = some ⟨some cid, some rpc⟩ ∧
        (∀ t, (rpcSuggestGasTipCap rpc (rpcNonceAt rpc (C.PubkeyToAddress sk)
              (validateAuthorization now d auth w).2).2).1 = .ok t → 0 ≤ t →
          (tx.inner.GasTipCap : Int) = t ∧ tx.inner.GasFeeCap = 3 * tx.inner.GasTipCap) ∧
        (∀ e, (rpcSuggestGasTipCap rpc (rpcNonceAt rpc (C.PubkeyToAddress sk)
              (validateAuthorization now d auth w).2).2).1 = .error e →
          tx.inner.GasTipCap = 2000000000 ∧ tx.inner.GasFeeCap = 3 * tx.inner.GasTipCap)) ∧
    (∀ sk cid rpc a sponsorNonce txData gasLimit chainU sig e,
      sponsorPK = some sk → d = some ⟨some cid, some rpc⟩ → auth = some a →
      (validateAuthorization now d auth w).1 = .ok () → validateCalls calls = .ok () →
      (rpcNonceAt rpc (C.PubkeyToAddress sk) (validateAuthorization now d auth w).2).1
        = .ok sponsorNonce →
      (rpcSuggestGasTipCap rpc (rpcNonceAt rpc (C.PubkeyToAddress sk)
          (validateAuthorization now d auth w).2).2).1 = .error e →
      buildCallData C calls = .ok (txData, gasLimit) →
      MustFromBig cid = .ok chainU →
      C.SignNewTx sk cid
        { ChainID := chainU, Nonce := sponsorNonce, GasTipCap := 2000000000,
          GasFeeCap := 6000000000, Gas := gasLimit, To := a.Signer, Value := 0,
          Data := txData, AuthList := buildAuthList a } = .ok sig →
      (ExecuteSponsored C now d auth calls sponsorPK w).1 =
        .ok ⟨{ ChainID := chainU, Nonce := sponsorNonce, GasTipCap := 2000000000,
               GasFeeCap := 6000000000, Gas := gasLimit, To := a.Signer, Value := 0,
               Data := txData, AuthList := buildAuthList a }, sig⟩) := by
  constructor
  · intro tx h
    obtain ⟨sk, cid, rpc, a, m, txData, gasLimit, hsk, hd, _, _, _, _, _, hbody, _⟩ :=
      (ExecuteSponsored_ok C now d auth calls sponsorPK w tx).mp h
    obtain ⟨_, hT, hF, _⟩ := assembleSetCodeTx_ok _ _ _ _ _ _ _ hbody
    refine ⟨sk, cid, rpc, hsk, hd, ?_, ?_⟩
    · intro t ht h0
      rw [ht] at hT hF
      simp only [tipOrFallback] at hT hF
      have h1 := MustFromBig_nonneg t _ h0 hT
      have h2 := MustFromBig_nonneg (t * 3) _ (by omega) hF
      refine ⟨h1, ?_⟩
      have : (tx.inner.GasFeeCap : Int) = ((3 * tx.inner.GasTipCap : Nat) : Int) := by
        push_cast
        omega
      exact_mod_cast this
    · intro e he
      rw [he] at hT hF
      simp only [tipOrFallback] at hT hF
      have h1 := MustFromBig_nonneg 2000000000 _ (by decide) hT
      have h2 := MustFromBig_nonneg (2000000000 * 3) _ (by decide) hF
      constructor
      · exact_mod_cast h1
      · have : (tx.inner.GasFeeCap : Int) = ((3 * tx.inner.GasTipCap : Nat) : Int) := by
          push_cast
          omega
        exact_mod_cast this
  · intro sk cid rpc a sponsorNonce txData gasLimit chainU sig e hsk hd ha hva hvc hn ht hb hc hs
    apply (ExecuteSponsored_ok C now d auth calls sponsorPK w _).mpr
    refine ⟨sk, cid, rpc, a, sponsorNonce, txData, gasLimit, hsk, hd, ha, hva, hvc, hn, hb,
      ?_, hs⟩
    rw [ht]
    have h2g : MustFromBig 2000000000 = .ok 2000000000 :=
      MustFromBig_of_range 2000000000 (by decide) (by norm_num)
    have h6g : MustFromBig (2000000000 * 3) = .ok 6000000000 :=
      MustFromBig_of_range (2000000000 * 3) (by decide) (by norm_num)
    exact assembleSetCodeTx_of_ok cid sponsorNonce 2000000000 gasLimit a txData _ _ _ hc h2g h6g

/-- C8 witness: with a failing tip read the transaction is built with tip
2 gwei and fee cap 6 gwei; with a suggestion of 1 gwei the tip is 1 gwei and
the fee cap 3 gwei. -/
theorem ExecuteSponsored_fees_witness :
    (∃ tx, (ExecuteSponsored demoCrypto 1000 (demoService demoNonces (.error "rpc down"))
        (some demoAuth) [demoCall] (some demoSponsor) demoWorld).1 = .ok tx ∧
      tx.inner.GasTipCap = 2000000000 ∧ tx.inner.GasFeeCap = 6000000000) ∧
    (∃ tx, (ExecuteSponsored demoCrypto 1000 (demoService demoNonces (.ok 1000000000))
        (some demoAuth) [demoCall] (some demoSponsor) demoWorld).1 = .ok tx ∧
      tx.inner.GasTipCap = 1000000000 ∧ tx.inner.GasFeeCap = 3000000000) := by
  constructor
  · refine ⟨_, rfl, ?_⟩
    obtain ⟨sk, cid, rpc, hsk, hd, _, hfail⟩ :=
      (ExecuteSponsored_fees demoCrypto 1000 (demoService demoNonces (.error "rpc down"))
        (some demoAuth) [demoCall] (some demoSponsor) demoWorld).1 _ rfl
    exact ⟨by decide!, by decide!⟩
  · refine ⟨_, rfl, ?_⟩
    exact ⟨by decide!, by decide!⟩

/-! ## The fixed encoders -/

theorem bigBytesAux_append (fuel n : Nat) (acc : List Byte) :
    bigBytesAux fuel n acc = bigBytesAux fuel n [] ++ acc := by
  induction fuel generalizing n acc with
  | zero => simp [bigBytesAux]
  | succ f ih =>
    unfold bigBytesAux
    by_cases hn : n = 0
    · simp [hn]
    · rw [if_neg hn, if_neg hn, ih (n / 256) (byteOfNat n :: acc), ih (n / 256) [byteOfNat n]]
      simp

theorem fixedBE_zero (k : Nat) : fixedBE k 0 = List.replicate k (0 : Byte) := by
  induction k with
  | zero => rfl
  | succ k ih =>
    rw [fixedBE, Nat.zero_div, ih, List.replicate_succ']
    rfl

theorem LeftPadBytes_snoc (xs : List Byte) (b : Byte) (k : Nat) :
    LeftPadBytes (xs ++ [b]) (k + 1) = LeftPadBytes xs k ++ [b] := by
  unfold LeftPadBytes
  by_cases h : k ≤ xs.length
  · rw [if_pos (by simpa using h), if_pos h]
  · rw [if_neg (by simpa using h), if_neg h]
    simp [List.append_assoc]

theorem LeftPadBytes_bigBytesAux (k : Nat) :
    ∀ f n, n ≤ f → n < 256 ^ k → LeftPadBytes (bigBytesAux f n []) k = fixedBE k n := by
  induction k with
  | zero =>
    intro f n _ hn
    have h0 : n = 0 := by simpa using hn
    subst h0
    cases f <;> simp [bigBytesAux, LeftPadBytes, fixedBE]
  | succ k ih =>
    intro f n hf hn
    by_cases h0 : n = 0
    · subst h0
      rw [fixedBE_zero]
      cases f <;> simp [bigBytesAux, LeftPadBytes]
    · cases f with
      | zero => omega
      | succ f =>
        have hdiv : n / 256 < n := Nat.div_lt_self (by omega) (by decide)
        have hk : n / 256 < 256 ^ k := by
          rw [pow_succ] at hn
          exact Nat.div_lt_of_lt_mul (by rw [Nat.mul_comm]; exact hn)
        unfold bigBytesAux
        rw [if_neg h0, bigBytesAux_append, LeftPadBytes_snoc, ih f (n / 256) (by omega) hk]
        rfl

theorem LeftPadBytes_natBytes (k n : Nat) (h : n < 256 ^ k) :
    LeftPadBytes (natBytes n) k = fixedBE k n :=
  LeftPadBytes_bigBytesAux k n n (le_refl n) h

theorem LeftPadBytes_address (a : Address) :
    LeftPadBytes a.bytes 32 = List.replicate 12 (0 : Byte) ++ a.bytes := by
  unfold LeftPadBytes
  rw [if_neg (by rw [a.len]; decide), a.len]

theorem selector_length (C : Crypto) (hk : C.KeccakContract) (sig : String) :
    (selector C sig).length = 4 := by
  unfold selector
  rw [List.length_take, hk]
  rfl

/-- C9: for every token address, recipient address and amount with
`0 ≤ amount < 2^256`, the text returned by `Mint` is `0x` followed by the
hexadecimal form of exactly 100 bytes: the first four bytes of the Keccak-256
digest of `mint(address,address,uint256)`, then three 32-byte words, namely
the token address behind twelve zero bytes, the recipient address behind
twelve zero bytes, and the 32-byte big-endian form of the amount. -/
theorem Mint_layout (C : Crypto) (tokenAddr toAddr : Address) (amount : Int)
    (hk : C.KeccakContract) (h0 : 0 ≤ amount) (h1 : amount < 2 ^ 256) :
    ∃ sel w1 w2 w3 : List Byte,
      Mint C tokenAddr toAddr amount = hexString (sel ++ w1 ++ w2 ++ w3) ∧
      Hex2Bytes (trim0x (Mint C tokenAddr toAddr amount).data) = sel ++ w1 ++ w2 ++ w3 ∧
      (sel ++ w1 ++ w2 ++ w3).length = 100 ∧
      sel = (C.Keccak256 (stringBytes "mint(address,address,uint256)")).take 4 ∧
      sel.length = 4 ∧
      w1 = List.replicate 12 (0 : Byte) ++ tokenAddr.bytes ∧ w1.length = 32 ∧
      w2 = List.replicate 12 (0 : Byte) ++ toAddr.bytes ∧ w2.length = 32 ∧
      w3.length = 32 ∧ (fromBytesBE w3 : Int) = amount := by
  have hsel := selector_length C hk "mint(address,address,uint256)"
  have hn : amount.natAbs < 256 ^ 32 := by
    have : (256 : Nat) ^ 32 = 2 ^ 256 := by norm_num
    rw [this]
    omega
  have hw3 : LeftPadBytes (bigBytes amount) 32 = fixedBE 32 amount.natAbs :=
    LeftPadBytes_natBytes 32 amount.natAbs hn
  have hmint : Mint C tokenAddr toAddr amount =
      hexString (selector C "mint(address,address,uint256)"
        ++ (List.replicate 12 (0 : Byte) ++ tokenAddr.bytes)
        ++ (List.replicate 12 (0 : Byte) ++ toAddr.bytes) ++ fixedBE 32 amount.natAbs) := by
    unfold Mint
    simp only [LeftPadBytes_address, hw3]
  refine ⟨selector C "mint(address,address,uint256)",
    List.replicate 12 (0 : Byte) ++ tokenAddr.bytes,
    List.replicate 12 (0 : Byte) ++ toAddr.bytes, fixedBE 32 amount.natAbs,
    hmint, ?_, ?_, rfl, hsel, rfl, ?_, rfl, ?_, length_fixedBE _ _, ?_⟩
  · rw [hmint, Hex2Bytes_hexString]
  · simp only [List.length_append, hsel, List.length_replicate, Address.len, length_fixedBE]
  · simp [Address.len]
  · simp [Address.len]
  · rw [fromBytesBE_fixedBE, Nat.mod_eq_of_lt hn]
    omega

theorem demoCrypto_keccakContract : demoCrypto.KeccakContract := by
  intro m
  exact length_fixedBE 32 _

/-- C9 witness: minting 1000 units. -/
theorem Mint_layout_witness :
    ∃ sel w1 w2 w3 : List Byte,
      Mint demoCrypto addrA addrB 1000 = hexString (sel ++ w1 ++ w2 ++ w3) ∧
      (sel ++ w1 ++ w2 ++ w3).length = 100 ∧ (fromBytesBE w3 : Int) = 1000 := by
  obtain ⟨sel, w1, w2, w3, h, _, hl, _, _, _, _, _, _, _, hv⟩ :=
    Mint_layout demoCrypto addrA addrB 1000 demoCrypto_keccakContract (by decide) (by norm_num)
  exact ⟨sel, w1, w2, w3, h, hl, hv⟩

/-! ## Round trip of the multicall encoding -/

theorem u256Word_length (n : Nat) : (u256Word n).length = 32 := length_fixedBE 32 _

theorem fromBytesBE_u256Word (n : Nat) (h : n < 2 ^ 256) : fromBytesBE (u256Word n) = n := by
  unfold u256Word
  rw [fromBytesBE_fixedBE, Nat.mod_eq_of_lt h]
  apply Nat.mod_eq_of_lt
  calc n < 2 ^ 256 := h
    _ = 256 ^ 32 := by norm_num

theorem readWord_drop (bs : List Byte) (p q : Nat) :
    readWord bs (p + q) = readWord (bs.drop p) q := by
  unfold readWord
  rw [List.drop_drop, Nat.add_comm]

theorem readAddress_drop (bs : List Byte) (p q : Nat) :
    readAddress bs (p + q) = readAddress (bs.drop p) q := by
  unfold readAddress
  rw [List.drop_drop, Nat.add_comm]

theorem readBytes_drop (bs : List Byte) (p q : Nat) :
    readBytes bs (p + q) = readBytes (bs.drop p) q := by
  unfold readBytes
  rw [readWord_drop, List.drop_drop, Nat.add_assoc]

theorem decodeTuple_drop (bs : List Byte) (p : Nat) :
    decodeTuple bs p = decodeTuple (bs.drop p) 0 := by
  unfold decodeTuple
  have h0 : readWord bs p = readWord (bs.drop p) 0 := readWord_drop bs p 0
  rw [h0, readAddress_drop, readWord_drop bs p 64]
  simp only [Nat.zero_add]
  cases readWord (bs.drop p) 0 with
  | none => rfl
  | some off => simp only [readBytes_drop]

theorem readWord_head (w rest : List Byte) (h : w.length = 32) :
    readWord (w ++ rest) 0 = some (fromBytesBE w) := by
  unfold readWord
  simp only [List.drop_zero, List.take_left' h, h, if_true]

theorem readWord_u256Word (n : Nat) (rest : List Byte) (h : n < 2 ^ 256) :
    readWord (u256Word n ++ rest) 0 = some n := by
  rw [readWord_head _ _ (u256Word_length n), fromBytesBE_u256Word n h]

theorem BytesToAddress_padded (a : Address) :
    BytesToAddress (List.replicate 12 (0 : Byte) ++ a.bytes) = a := by
  have h : (List.replicate 12 (0 : Byte) ++ a.bytes).drop
      ((List.replicate 12 (0 : Byte) ++ a.bytes).length - 20) = a.bytes := by
    have hl : (List.replicate 12 (0 : Byte) ++ a.bytes).length - 20 = 12 := by
      simp [a.len]
    rw [hl]
    exact List.drop_left' (by simp)
  have h2 : LeftPadBytes a.bytes 20 = a.bytes := by
    unfold LeftPadBytes
    rw [if_pos (by rw [a.len])]
  cases a with
  | mk bytes len =>
    simp only [BytesToAddress, Address.mk.injEq]
    simp only at h h2
    rw [h, h2]

theorem RightPadBytes_take (b : List Byte) (l : Nat) :
    (RightPadBytes b l).take b.length = b := by
  unfold RightPadBytes
  split
  · exact List.take_length b
  · exact List.take_left' rfl

theorem decodeTuple_tupleBytes (c : Call) (v : Nat) (rest : List Byte)
    (hv : v < 2 ^ 256) (hd : c.Data.length < 2 ^ 256) :
    decodeTuple (tupleBytes c v ++ rest) 0 = some (c.Data, c.To, v) := by
  have e0 : tupleBytes c v ++ rest = u256Word 96 ++ (LeftPadBytes c.To.bytes 32 ++
      (u256Word v ++ (u256Word c.Data.length ++
        (RightPadBytes c.Data ((c.Data.length + 31) / 32 * 32) ++ rest)))) := by
    simp [tupleBytes, packBytesSlice, List.append_assoc]
  have hA : (LeftPadBytes c.To.bytes 32).length = 32 := by
    rw [LeftPadBytes_address]; simp [c.To.len]
  have d32 : (tupleBytes c v ++ rest).drop 32 = LeftPadBytes c.To.bytes 32 ++
      (u256Word v ++ (u256Word c.Data.length ++
        (RightPadBytes c.Data ((c.Data.length + 31) / 32 * 32) ++ rest))) := by
    rw [e0]; exact List.drop_left' (u256Word_length 96)
  have d64 : (tupleBytes c v ++ rest).drop 64 = u256Word v ++ (u256Word c.Data.length ++
        (RightPadBytes c.Data ((c.Data.length + 31) / 32 * 32) ++ rest)) := by
    have : (tupleBytes c v ++ rest).drop 64 = ((tupleBytes c v ++ rest).drop 32).drop 32 := by
      rw [List.drop_drop]
    rw [this, d32]; exact List.drop_left' hA
  have d96 : (tupleBytes c v ++ rest).drop 96 = u256Word c.Data.length ++
        (RightPadBytes c.Data ((c.Data.length + 31) / 32 * 32) ++ rest) := by
    have : (tupleBytes c v ++ rest).drop 96 = ((tupleBytes c v ++ rest).drop 64).drop 32 := by
      rw [List.drop_drop]
    rw [this, d64]; exact List.drop_left' (u256Word_length v)
  have d128 : (tupleBytes c v ++ rest).drop 128 =
        RightPadBytes c.Data ((c.Data.length + 31) / 32 * 32) ++ rest := by
    have : (tupleBytes c v ++ rest).drop 128 = ((tupleBytes c v ++ rest).drop 96).drop 32 := by
      rw [List.drop_drop]
    rw [this, d96]; exact List.drop_left' (u256Word_length _)
  have r0 : readWord (tupleBytes c v ++ rest) 0 = some 96 := by
    rw [e0]; exact readWord_u256Word 96 _ (by norm_num)
  have r32 : readAddress (tupleBytes c v ++ rest) 32 = some c.To := by
    unfold readAddress
    rw [d32, List.take_left' hA]
    simp only [hA, if_true, LeftPadBytes_address, BytesToAddress_padded]
    simp [c.To.len]
  have r64 : readWord (tupleBytes c v ++ rest) 64 = some v := by
    have := readWord_drop (tupleBytes c v ++ rest) 64 0
    rw [Nat.add_zero] at this
    rw [this, d64]; exact readWord_u256Word v _ hv
  have r96w : readWord (tupleBytes c v ++ rest) 96 = some c.Data.length := by
    have := readWord_drop (tupleBytes c v ++ rest) 96 0
    rw [Nat.add_zero] at this
    rw [this, d96]; exact readWord_u256Word _ _ hd
  have r96 : readBytes (tupleBytes c v ++ rest) 96 = some c.Data := by
    unfold readBytes
    rw [r96w]
    simp only
    have h128 : (96 : Nat) + 32 = 128 := rfl
    rw [h128, d128]
    have ht : (RightPadBytes c.Data ((c.Data.length + 31) / 32 * 32) ++ rest).take c.Data.length
        = c.Data := by
      have hle : c.Data.length ≤ (RightPadBytes c.Data ((c.Data.length + 31) / 32 * 32)).length := by
        unfold RightPadBytes
        split
        · exact le_refl _
        · simp
      rw [List.take_append_of_le_length hle, RightPadBytes_take]
    rw [ht]
    simp
  unfold decodeTuple
  simp only [Nat.zero_add, r0, r32, r64, r96]

theorem packOffsets_length (off : Nat) (vals : List (List Byte)) :
    (packOffsets off vals).length = 32 * vals.length := by
  induction vals generalizing off with
  | nil => rfl
  | cons v vs ih =>
    simp only [packOffsets, List.length_append, u256Word_length, ih, List.length_cons]
    omega

theorem packOffsets_drop (pre post : List (List Byte)) (off : Nat) :
    (packOffsets off (pre ++ post)).drop (32 * pre.length)
      = packOffsets (off + pre.flatten.length) post := by
  induction pre generalizing off with
  | nil => simp
  | cons v vs ih =>
    have h : 32 * (v :: vs).length = 32 + 32 * vs.length := by simp; omega
    rw [h, ← List.drop_drop]
    simp only [List.cons_append, packOffsets]
    rw [List.drop_left' (u256Word_length off)]
    have := ih (off + v.length)
    simp only [List.flatten_cons, List.length_append]
    rw [← Nat.add_assoc]
    exact this

theorem decodeElems_pack (head : List Byte) (post : List Call) :
    ∀ pre : List Call,
    (∀ c ∈ post, (c.Value.getD 0).toNat < 2 ^ 256) →
    (∀ c ∈ post, c.Data.length < 2 ^ 256) →
    32 * (pre ++ post).length + (((pre ++ post).map encCall).flatten).length < 2 ^ 256 →
    decodeElems (head ++ (packOffsets (32 * (pre ++ post).length) ((pre ++ post).map encCall)
        ++ ((pre ++ post).map encCall).flatten)) head.length pre.length post.length
      = some (post.map callTriple) := by
  induction post with
  | nil => intro pre _ _ _; simp [decodeElems]
  | cons c post ih =>
    intro pre hv hd hB
    have hvals : (pre ++ c :: post).map encCall
        = pre.map encCall ++ (encCall c :: post.map encCall) := by simp
    have hflat : ((pre ++ c :: post).map encCall).flatten
        = (pre.map encCall).flatten ++ (encCall c ++ (post.map encCall).flatten) := by
      rw [hvals]; simp
    have hoffs : (packOffsets (32 * (pre ++ c :: post).length)
        ((pre ++ c :: post).map encCall)).length = 32 * (pre ++ c :: post).length := by
      rw [packOffsets_length, List.length_map]
    have hk : (pre.map encCall).flatten.length ≤ ((pre ++ c :: post).map encCall).flatten.length := by
      rw [hflat, List.length_append]; omega
    -- the offset word of element `pre.length`
    have step1 : readWord (head ++ (packOffsets (32 * (pre ++ c :: post).length)
          ((pre ++ c :: post).map encCall) ++ ((pre ++ c :: post).map encCall).flatten))
          (head.length + 32 * pre.length)
        = some (32 * (pre ++ c :: post).length + (pre.map encCall).flatten.length) := by
      rw [readWord_drop, List.drop_left]
      have h0 := readWord_drop (packOffsets (32 * (pre ++ c :: post).length)
          ((pre ++ c :: post).map encCall) ++ ((pre ++ c :: post).map encCall).flatten)
          (32 * pre.length) 0
      rw [Nat.add_zero] at h0
      rw [h0, List.drop_append_of_le_length (by rw [hoffs]; simp only [List.length_append, List.length_cons]; omega)]
      have hd2 := packOffsets_drop (pre.map encCall) (encCall c :: post.map encCall)
          (32 * (pre ++ c :: post).length)
      rw [List.length_map, ← hvals] at hd2
      rw [hd2, packOffsets, List.append_assoc]
      exact readWord_u256Word _ _ (by omega)
    -- the tuple found at that offset
    have step2 : decodeTuple (head ++ (packOffsets (32 * (pre ++ c :: post).length)
          ((pre ++ c :: post).map encCall) ++ ((pre ++ c :: post).map encCall).flatten))
          (head.length + (32 * (pre ++ c :: post).length + (pre.map encCall).flatten.length))
        = some (callTriple c) := by
      rw [decodeTuple_drop, ← List.drop_drop, List.drop_left]
      have e1 : (packOffsets (32 * (pre ++ c :: post).length) ((pre ++ c :: post).map encCall)
            ++ ((pre ++ c :: post).map encCall).flatten).drop
            (32 * (pre ++ c :: post).length + (pre.map encCall).flatten.length)
          = encCall c ++ (post.map encCall).flatten := by
        have := @List.drop_append _ (packOffsets (32 * (pre ++ c :: post).length)
            ((pre ++ c :: post).map encCall))
            (((pre ++ c :: post).map encCall).flatten) ((pre.map encCall).flatten.length)
        rw [hoffs] at this
        rw [this, hflat]
        exact List.drop_left _ _
      rw [e1]
      exact decodeTuple_tupleBytes c _ _ (hv c (List.mem_cons_self _ _))
        (hd c (List.mem_cons_self _ _))
    have e : pre ++ c :: post = (pre ++ [c]) ++ post := by simp
    have hrec := ih (pre ++ [c]) (fun x hx => hv x (List.mem_cons_of_mem _ hx))
      (fun x hx => hd x (List.mem_cons_of_mem _ hx)) (by rw [← e]; exact hB)
    rw [← e] at hrec
    have hlen : (pre ++ [c]).length = pre.length + 1 := by simp
    rw [hlen] at hrec
    simp only [List.length_cons, decodeElems, step1, step2, hrec, List.map_cons]

theorem packCall_ok (c : Call) (h : ∃ v, c.Value = some v ∧ 0 ≤ v) :
    packCall c = .ok (encCall c) := by
  obtain ⟨v, hv, h0⟩ := h
  unfold packCall encCall tupleBytes
  rw [hv]
  simp only [Option.getD_some]
  rw [if_neg (by omega)]

theorem packCalls_ok (calls : List Call) (h : ∀ c ∈ calls, ∃ v, c.Value = some v ∧ 0 ≤ v) :
    packCalls calls = .ok (calls.map encCall) := by
  induction calls with
  | nil => rfl
  | cons c cs ih =>
    unfold packCalls
    rw [packCall_ok c (h c (List.mem_cons_self _ _)),
      ih (fun x hx => h x (List.mem_cons_of_mem _ hx))]
    rfl

theorem encCall_length (c : Call) : (encCall c).length ≤ c.Data.length + 159 := by
  have hr : (RightPadBytes c.Data ((c.Data.length + 31) / 32 * 32)).length
      ≤ c.Data.length + 31 := by
    unfold RightPadBytes
    split
    · omega
    · simp only [List.length_append, List.length_replicate]
      omega
  have hA : (LeftPadBytes c.To.bytes 32).length = 32 := by
    rw [LeftPadBytes_address]; simp [c.To.len]
  simp only [encCall, tupleBytes, packBytesSlice, List.length_append, u256Word_length, hA]
  omega

theorem flatten_length_le (calls : List Call) (B : Nat) (h : ∀ c ∈ calls, c.Data.length < B) :
    ((calls.map encCall).flatten).length ≤ calls.length * (B + 159) := by
  induction calls with
  | nil => simp
  | cons c cs ih =>
    have h1 := encCall_length c
    have h2 := h c (List.mem_cons_self _ _)
    have h3 := ih (fun x hx => h x (List.mem_cons_of_mem _ hx))
    simp only [List.map_cons, List.flatten_cons, List.length_append, List.length_cons]
    rw [Nat.add_mul]
    omega

/-- C10: for every list of calls whose values are present and in the
`uint256` range (with lengths that fit a Go `int`), `ExecuteCalls` returns a
text, and ABI-decoding the call data that text denotes against
`execute((bytes,address,uint256)[])` yields exactly the `(data, to, value)`
triples of the calls, in their order. -/
theorem ExecuteCalls_roundtrip (C : Crypto) (calls : List Call) (hk : C.KeccakContract)
    (hv : ∀ c ∈ calls, ∃ v, c.Value = some v ∧ 0 ≤ v ∧ v < 2 ^ 256)
    (hn : calls.length < 2 ^ 63) (hd : ∀ c ∈ calls, c.Data.length < 2 ^ 63) :
    ∃ s, ExecuteCalls C calls = .ok s ∧
      decodeExecuteHex C s = some (calls.map callTriple) ∧
      (calls.map callTriple).length = calls.length ∧
      ∀ c ∈ calls, ((callTriple c).2.2 : Int) = c.Value.getD 0 := by
  have hpack : packCalls calls = .ok (calls.map encCall) :=
    packCalls_ok calls (fun c hc => by
      obtain ⟨v, h1, h2, _⟩ := hv c hc
      exact ⟨v, h1, h2⟩)
  have hvn : ∀ c ∈ calls, (c.Value.getD 0).toNat < 2 ^ 256 := by
    intro c hc
    obtain ⟨v, h1, h2, h3⟩ := hv c hc
    rw [h1]
    simp only [Option.getD_some]
    omega
  have hdn : ∀ c ∈ calls, c.Data.length < 2 ^ 256 := by
    intro c hc
    have := hd c hc
    omega
  have hflat := flatten_length_le calls (2 ^ 63) hd
  have hmul : calls.length * (2 ^ 63 + 159) ≤ 2 ^ 63 * (2 ^ 63 + 159) :=
    Nat.mul_le_mul_right _ (le_of_lt hn)
  have hB : 32 * calls.length + ((calls.map encCall).flatten).length < 2 ^ 256 := by
    have : (2 : Nat) ^ 63 * (2 ^ 63 + 159) + 32 * 2 ^ 63 < 2 ^ 256 := by norm_num
    omega
  have hlenn : calls.length < 2 ^ 256 := by omega
  -- the argument block
  have hargs : decodeExecuteArgs (u256Word 32 ++ packArray (calls.map encCall))
      = some (calls.map callTriple) := by
    unfold decodeExecuteArgs
    rw [readWord_u256Word 32 _ (by norm_num)]
    simp only
    have h32 := readWord_drop (u256Word 32 ++ packArray (calls.map encCall)) 32 0
    rw [Nat.add_zero] at h32
    rw [h32, List.drop_left' (u256Word_length 32)]
    unfold packArray
    rw [List.append_assoc, readWord_u256Word _ _ (by rw [List.length_map]; exact hlenn)]
    simp only [List.length_map]
    have hrec := decodeElems_pack (u256Word 32 ++ u256Word calls.length) calls []
      (by simpa using hvn) (by simpa using hdn) (by simpa using hB)
    simp only [List.nil_append, List.length_append, u256Word_length, List.length_nil,
      List.append_assoc] at hrec
    exact hrec
  refine ⟨hexString (selector C executeSig ++ u256Word 32 ++ packArray (calls.map encCall)),
    ?_, ?_, by simp, ?_⟩
  · simp only [ExecuteCalls, packExecute, hpack]
  · show (if (hexDecode (hexEncode _)).2 then decodeExecute C (hexDecode (hexEncode _)).1 else none)
      = _
    rw [hexDecode_hexEncode]
    simp only [if_true]
    unfold decodeExecute
    rw [List.append_assoc, List.take_left' (selector_length C hk executeSig),
      List.drop_left' (selector_length C hk executeSig), if_pos rfl]
    exact hargs
  · intro c hc
    obtain ⟨v, h1, h2, _⟩ := hv c hc
    simp only [callTriple, h1, Option.getD_some]
    omega

/-- C10 witness: the empty list encodes an empty array and decodes to no
triple; three calls decode to their three triples in order. -/
theorem ExecuteCalls_roundtrip_witness :
    (ExecuteCalls demoCrypto []
        = .ok (hexString (selector demoCrypto executeSig ++ u256Word 32 ++ u256Word 0)) ∧
      ∃ s, ExecuteCalls demoCrypto [] = .ok s ∧ decodeExecuteHex demoCrypto s = some []) ∧
    (∃ s, ExecuteCalls demoCrypto [demoCall, ⟨addrB, [1, 2, 3], some 5, 77⟩, demoCall] = .ok s ∧
      decodeExecuteHex demoCrypto s = some [([], addrA, 0), ([1, 2, 3], addrB, 5), ([], addrA, 0)]) := by
  refine ⟨⟨rfl, ?_⟩, ?_⟩
  · obtain ⟨s, h1, h2, _⟩ := ExecuteCalls_roundtrip demoCrypto [] demoCrypto_keccakContract
      (by intro c hc; cases hc) (by norm_num) (by intro c hc; cases hc)
    exact ⟨s, h1, h2⟩
  · obtain ⟨s, h1, h2, _⟩ := ExecuteCalls_roundtrip demoCrypto
      [demoCall, ⟨addrB, [1, 2, 3], some 5, 77⟩, demoCall] demoCrypto_keccakContract
      (by
        intro c hc
        simp only [List.mem_cons, List.mem_singleton, List.not_mem_nil, or_false] at hc
        rcases hc with rfl | rfl | rfl
        · exact ⟨0, rfl, by decide, by norm_num⟩
        · exact ⟨5, rfl, by decide, by norm_num⟩
        · exact ⟨0, rfl, by decide, by norm_num⟩)
      (by norm_num)
      (by
        intro c hc
        simp only [List.mem_cons, List.mem_singleton, List.not_mem_nil, or_false] at hc
        rcases hc with rfl | rfl | rfl <;> norm_num [demoCall])
    refine ⟨s, h1, ?_⟩
    rw [h2]
    rfl

/-! ## The generic encoder -/

theorem LeftPadBytes_length (b : List Byte) (l : Nat) :
    (LeftPadBytes b l).length = max l b.length := by
  unfold LeftPadBytes
  split
  · rename_i h; omega
  · rename_i h
    simp only [List.length_append, List.length_replicate]
    omega

theorem encodeParameter_length (p : Param) (w : List Byte) (h : encodeParameter p = .ok w) :
    32 ≤ w.length := by
  have key : ∀ b : List Byte, 32 ≤ (LeftPadBytes b 32).length := by
    intro b; rw [LeftPadBytes_length]; omega
  unfold encodeParameter at h
  split at h
  · split at h
    · cases h; exact key _
    · split at h
      · cases h; exact key _
      · split at h
        · split at h
          · cases h; exact key _
          · cases h
        · cases h
  · cases h; exact key _
  · cases h; exact key _
  · cases h; exact key _
  · cases h; exact key _
  · split at h <;> (cases h; exact key _)
  · cases h
  · cases h

/-- C11 (failing input): for the signature `foo(bytes32)` and the single
parameter `0x` followed by 66 hexadecimal digits, a supported kind,
`BuildGenericCall` succeeds and its output is the selector followed by 33
bytes, not by one 32-byte word: 37 bytes where `4 + 32·1 = 36` are claimed. -/
theorem BuildGenericCall_long_hex (C : Crypto) :
    ∃ tail : List Byte,
      BuildGenericCall C "foo(bytes32)" [longHexParam]
        = .ok (hexString (selector C "foo(bytes32)" ++ tail)) ∧
      tail.length = 33 ∧ 4 + tail.length ≠ 4 + 32 * 1 := by
  refine ⟨(hexDecode ("010203040506070809101112131415161718192021222324252627282930313233").data).1,
    ?_, by decide, by decide⟩
  have hsig : ("foo(bytes32)" = executeSig) = False := by decide
  have henc : encodeParameters [longHexParam]
      = .ok ((hexDecode
          ("010203040506070809101112131415161718192021222324252627282930313233").data).1) := by
    rfl
  simp only [BuildGenericCall, hsig, if_false, henc]

theorem encodeParameters_unsupported (pre : List Param) (p : Param) (post : List Param)
    (hp : p.unsupported = true) (out : List Byte) :
    encodeParameters (pre ++ p :: post) ≠ .ok out := by
  induction pre generalizing out with
  | nil =>
    intro h
    cases p <;> simp [Param.unsupported] at hp <;>
      simp [encodeParameters, encodeParameter] at h
  | cons q pre ih =>
    intro h
    simp only [List.cons_append] at h
    unfold encodeParameters at h
    split at h
    · cases h
    · cases h
    · cases h
    · split at h
      · cases h
      · split at h
        · cases h
        · rename_i r hr
          exact ih r hr

/-- C12 (failing input): for the signature `foo(uint256)` and a parameter
list that starts with a nil value, `BuildGenericCall` neither returns an
error nor call data: it panics on a nil dereference. -/
theorem BuildGenericCall_nil_panics (C : Crypto) (rest : List Param) :
    BuildGenericCall C "foo(uint256)" (.null :: rest)
      = .error (.panic "nil pointer dereference") := by
  have hsig : ("foo(uint256)" = executeSig) = False := by decide
  simp only [BuildGenericCall, hsig, if_false, encodeParameters]

/-! ## Decimal strings in the generic encoder -/

theorem scanDigits_eq (s : List Char) (acc : Nat) (h : ∀ c ∈ s, '0' ≤ c ∧ c ≤ '9') :
    scanDigits s acc = some (s.foldl (fun a c => a * 10 + (c.toNat - 48)) acc) := by
  induction s generalizing acc with
  | nil => rfl
  | cons c cs ih =>
    have hc := h c (List.mem_cons_self _ _)
    simp only [scanDigits, digitVal, hc, and_self, if_true, List.foldl_cons]
    exact ih _ (fun x hx => h x (List.mem_cons_of_mem _ hx))

theorem SetString10_decimal (s : String) (h : IsDecimalText s) :
    SetString10 s.data = some (Int.ofNat (decimalValue s.data)) := by
  obtain ⟨hne, hd⟩ := h
  cases hs : s.data with
  | nil => exact absurd hs hne
  | cons c rest =>
    rw [hs] at hd
    have hc := hd c (List.mem_cons_self _ _)
    have hplus : c ≠ '+' := by
      intro hx; subst hx; revert hc; decide
    have hminus : c ≠ '-' := by
      intro hx; subst hx; revert hc; decide
    unfold SetString10
    split
    · rename_i heq; cases heq
    · rename_i heq
      simp only [List.cons.injEq] at heq
      exact absurd heq.1 hplus
    · rename_i heq
      simp only [List.cons.injEq] at heq
      exact absurd heq.1 hminus
    · rename_i c2 rest2 _ _ heq
      simp only [List.cons.injEq] at heq
      obtain ⟨h1, h2⟩ := heq
      subst h1; subst h2
      rw [scanDigits_eq _ _ hd]
      rfl

theorem has0xPrefix_decimal (s : List Char) (h : ∀ c ∈ s, '0' ≤ c ∧ c ≤ '9') :
    has0xPrefix s = false := by
  unfold has0xPrefix
  split
  · have := h 'x' (by simp)
    revert this; decide
  · have := h 'X' (by simp)
    revert this; decide
  · rfl

theorem isHex_decimal (s : List Char) (h : ∀ c ∈ s, '0' ≤ c ∧ c ≤ '9') (hl : s.length = 40) :
    isHex s = true := by
  unfold isHex
  simp only [hl, Bool.and_eq_true, decide_eq_true_eq, List.all_eq_true]
  refine ⟨by decide, ?_⟩
  intro c hc
  have := h c hc
  simp only [isHexCharacter, hexVal, this, and_self, if_true, Option.isSome_some]

theorem IsHexAddress_decimal (s : String) (h : IsDecimalText s) :
    IsHexAddress s = decide (s.data.length = 40) := by
  unfold IsHexAddress
  simp only [has0xPrefix_decimal s.data h.2, Bool.false_eq_true, if_false]
  by_cases hl : s.data.length = 40
  · simp only [hl, isHex_decimal s.data h.2 hl, decide_True, Bool.and_self]
  · simp only [hl, decide_False, Bool.false_and]

/-- C13 (counterexample): the forty-digit decimal string denoting `10^39`, a
number below `2^256`, does not resolve to the 32-byte big-endian word of
`10^39`; it resolves to the word of the address with those hexadecimal
digits. -/
theorem encodeParameter_forty_digits :
    IsDecimalText fortyDigits ∧ decimalValue fortyDigits.data = 10 ^ 39 ∧
    (10 : Nat) ^ 39 < 2 ^ 256 ∧
    encodeParameter (.str fortyDigits) ≠ .ok (fixedBE 32 (10 ^ 39)) ∧
    encodeParameter (.str fortyDigits)
      = .ok (List.replicate 12 (0 : Byte) ++ (HexToAddress fortyDigits).bytes) := by
  have hres : encodeParameter (.str fortyDigits)
      = .ok (List.replicate 12 (0 : Byte) ++ (HexToAddress fortyDigits).bytes) := by rfl
  refine ⟨⟨by decide, by decide⟩, by decide, by norm_num, ?_, hres⟩
  rw [hres]
  intro h
  simp only [Except.ok.injEq] at h
  revert h
  decide

/-- C13 (amended): a decimal numeric string that is not exactly forty
characters long and denotes `n < 2^256` resolves to the 32-byte big-endian
word of `n`; a decimal numeric string of exactly forty characters is read as
a hexadecimal address and resolves to that address behind twelve zero
bytes. -/
theorem encodeParameter_decimal (s : String) (h : IsDecimalText s) :
    (s.data.length ≠ 40 → decimalValue s.data < 2 ^ 256 →
      encodeParameter (.str s) = .ok (fixedBE 32 (decimalValue s.data)) ∧
      (fixedBE 32 (decimalValue s.data)).length = 32 ∧
      fromBytesBE (fixedBE 32 (decimalValue s.data)) = decimalValue s.data) ∧
    (s.data.length = 40 →
      encodeParameter (.str s)
        = .ok (List.replicate 12 (0 : Byte) ++ (HexToAddress s).bytes)) := by
  constructor
  · intro hl hn
    have hn' : decimalValue s.data < 256 ^ 32 := by
      have : (256 : Nat) ^ 32 = 2 ^ 256 := by norm_num
      rw [this]; exact hn
    have haddr : IsHexAddress s = false := by
      rw [IsHexAddress_decimal s h]; simp only [hl, decide_False]
    refine ⟨?_, length_fixedBE _ _, ?_⟩
    · simp only [encodeParameter, haddr, SetString10_decimal s h]
      have : bigBytes (Int.ofNat (decimalValue s.data)) = natBytes (decimalValue s.data) := rfl
      simp only [Bool.false_eq_true, if_false, this, LeftPadBytes_natBytes 32 _ hn']
    · rw [fromBytesBE_fixedBE, Nat.mod_eq_of_lt hn']
  · intro hl
    have haddr : IsHexAddress s = true := by
      rw [IsHexAddress_decimal s h]; simp only [hl, decide_True]
    simp only [encodeParameter, haddr, if_true, LeftPadBytes_address]

/-- C13 witness: the string `1000` resolves to the word of 1000, and the
forty-digit string resolves to an address word. -/
theorem encodeParameter_decimal_witness :
    encodeParameter (.str "1000") = .ok (fixedBE 32 1000) ∧
    encodeParameter (.str fortyDigits)
      = .ok (List.replicate 12 (0 : Byte) ++ (HexToAddress fortyDigits).bytes) := by
  have h1 := (encodeParameter_decimal "1000" ⟨by decide, by decide⟩).1 (by decide)
    (by decide)
  have h2 := (encodeParameter_decimal fortyDigits ⟨by decide, by decide⟩).2 (by decide)
  exact ⟨h1.1, h2⟩

/-! ## The multicall path of `BuildGenericCall` -/

theorem convertCall_wellFormed (i : Nat) (p : Param) (h : entryWellFormed p = true) :
    ∃ call, convertCall i p = .ok call := by
  cases p with
  | obj m =>
    unfold entryWellFormed at h
    simp only at h
    cases hd : mapGet m "data" with
    | none => simp [hd] at h
    | some pd =>
      cases pd with
      | str d =>
        cases ht : mapGet m "to" with
        | none => simp [hd, ht] at h
        | some pt =>
          cases pt with
          | str t =>
            cases hv : mapGet m "value" with
            | none => simp [hd, ht, hv] at h
            | some pv =>
              cases pv with
              | str v =>
                simp only [hd, ht, hv, Bool.and_eq_true] at h
                obtain ⟨⟨h1, h2⟩, h3⟩ := h
                obtain ⟨value, hvalue⟩ := Option.isSome_iff_exists.mp h3
                have hdec : (if d ≠ "0x" ∧ d ≠ "" then hexDecode (trim0x d.data)
                    else (([] : List Byte), true)).2 = true := by
                  by_cases hc : d ≠ "0x" ∧ d ≠ ""
                  · rw [if_pos hc]
                    simp only [validDataHex, Bool.or_eq_true, decide_eq_true_eq] at h1
                    rcases h1 with (h1 | h1) | h1
                    · exact absurd h1 hc.1
                    · exact absurd h1 hc.2
                    · exact h1
                  · rw [if_neg hc]
                simp only [convertCall, hd, ht, hv, hdec, h2, hvalue, Bool.not_true,
                  Bool.false_eq_true, if_false]
                exact ⟨_, rfl⟩
              | _ => simp [hd, ht, hv] at h
          | _ => simp [hd, ht] at h
      | _ => simp [hd] at h
  | _ => simp [entryWellFormed] at h

theorem convertCall_malformed (i : Nat) (p : Param) (h : entryWellFormed p = false) :
    ∃ e, convertCall i p = .error (.error e) ∧ e.callIndex = some i := by
  cases p with
  | obj m =>
    unfold entryWellFormed at h
    simp only at h
    cases hd : mapGet m "data" with
    | none => exact ⟨.callDataNotString i, by simp [convertCall, hd], rfl⟩
    | some pd =>
      cases pd with
      | str d =>
        cases ht : mapGet m "to" with
        | none => exact ⟨.callToNotString i, by simp [convertCall, hd, ht], rfl⟩
        | some pt =>
          cases pt with
          | str t =>
            cases hv : mapGet m "value" with
            | none => exact ⟨.callValueNotString i, by simp [convertCall, hd, ht, hv], rfl⟩
            | some pv =>
              cases pv with
              | str v =>
                simp only [hd, ht, hv] at h
                by_cases hdec : (if d ≠ "0x" ∧ d ≠ "" then hexDecode (trim0x d.data)
                    else (([] : List Byte), true)).2 = true
                · by_cases h2 : IsHexAddress t = true
                  · cases h3 : SetString10 v.data with
                    | none =>
                      refine ⟨.callInvalidValue i v, ?_, rfl⟩
                      simp only [convertCall, hd, ht, hv, hdec, h2, h3, Bool.not_true,
                        Bool.false_eq_true, if_false]
                    | some value =>
                      exfalso
                      have h1 : validDataHex d = true := by
                        simp only [validDataHex, Bool.or_eq_true, decide_eq_true_eq]
                        by_cases hc : d ≠ "0x" ∧ d ≠ ""
                        · rw [if_pos hc] at hdec
                          exact Or.inr hdec
                        · by_cases hx : d = "0x"
                          · exact Or.inl (Or.inl hx)
                          · have : d = "" := by
                              by_contra hy
                              exact hc ⟨hx, hy⟩
                            exact Or.inl (Or.inr this)
                      simp [h1, h2, h3] at h
                  · refine ⟨.callInvalidAddress i t, ?_, rfl⟩
                    have h2' : IsHexAddress t = false := by
                      cases hx : IsHexAddress t with
                      | false => rfl
                      | true => exact absurd hx h2
                    simp only [convertCall, hd, ht, hv, hdec, h2', Bool.not_true,
                      Bool.not_false, Bool.false_eq_true, if_false, if_true]
                · refine ⟨.callInvalidData i, ?_, rfl⟩
                  have hdec' : (if d ≠ "0x" ∧ d ≠ "" then hexDecode (trim0x d.data)
                      else (([] : List Byte), true)).2 = false := by
                    cases hx : (if d ≠ "0x" ∧ d ≠ "" then hexDecode (trim0x d.data)
                      else (([] : List Byte), true)).2 with
                    | false => rfl
                    | true => exact absurd hx hdec
                  simp only [convertCall, hd, ht, hv, hdec', Bool.not_false, if_true]
              | _ => exact ⟨.callValueNotString i, by simp [convertCall, hd, ht, hv], rfl⟩
          | _ => exact ⟨.callToNotString i, by simp [convertCall, hd, ht], rfl⟩
      | _ => exact ⟨.callDataNotString i, by simp [convertCall, hd], rfl⟩
  | _ => exact ⟨.callNotObject i, by simp [convertCall], rfl⟩

theorem convertCalls_first_malformed (items : List Param) :
    ∀ (k i : Nat) (p : Param), items.get? i = some p → entryWellFormed p = false →
      (∀ j q, j < i → items.get? j = some q → entryWellFormed q = true) →
      ∃ e, convertCalls k items = .error (.error e) ∧ e.callIndex = some (k + i) := by
  induction items with
  | nil => intro k i p hp; simp at hp
  | cons x xs ih =>
    intro k i p hp hbad hgood
    cases i with
    | zero =>
      simp only [List.get?_cons_zero, Option.some.injEq] at hp
      subst hp
      obtain ⟨e, he, hi⟩ := convertCall_malformed k x hbad
      exact ⟨e, by simp only [convertCalls, he], by simpa using hi⟩
    | succ i =>
      simp only [List.get?_cons_succ] at hp
      have hx : entryWellFormed x = true := hgood 0 x (Nat.succ_pos i) rfl
      obtain ⟨call, hcall⟩ := convertCall_wellFormed k x hx
      obtain ⟨e, he, hi⟩ := ih (k + 1) i p hp hbad
        (fun j q hj hq => hgood (j + 1) q (Nat.succ_lt_succ hj) (by simpa using hq))
      refine ⟨e, by simp only [convertCalls, hcall, he], ?_⟩
      rw [hi]
      congr 1
      omega

/-- C14: under the signature `execute((bytes,address,uint256)[])`,
`BuildGenericCall` returns an error unless there is exactly one parameter and
it is an array; and when entry `i` of the array is malformed and every entry
before it is well-formed, it returns an error whose message names index `i`,
and no call data. -/
theorem BuildGenericCall_execute_errors (C : Crypto) :
    (∀ params : List Param, params.length ≠ 1 →
      BuildGenericCall C executeSig params = .error (.error .executeParamCount)) ∧
    (∀ p : Param, (∀ items, p ≠ .slice items) →
      BuildGenericCall C executeSig [p] = .error (.error .executeNotArray)) ∧
    (∀ (items : List Param) (i : Nat) (p : Param), items.get? i = some p →
      entryWellFormed p = false →
      (∀ j q, j < i → items.get? j = some q → entryWellFormed q = true) →
      ∃ e, BuildGenericCall C executeSig [.slice items] = .error (.error e) ∧
        e.callIndex = some i) := by
  refine ⟨?_, ?_, ?_⟩
  · intro params hlen
    simp only [BuildGenericCall, if_true]
    unfold buildExecuteCall
    split
    · simp at hlen
    · rfl
  · intro p hp
    cases p with
    | slice items => exact absurd rfl (hp items)
    | _ => simp only [BuildGenericCall, if_true, buildExecuteCall]
  · intro items i p hp hbad hgood
    obtain ⟨e, he, hi⟩ := convertCalls_first_malformed items 0 i p hp hbad hgood
    refine ⟨e, ?_, by simpa using hi⟩
    simp only [BuildGenericCall, if_true, buildExecuteCall, he]

/-- C14 witness: in an array whose entry 0 is well-formed and whose entry 1
has `data` with an odd number of hexadecimal digits, the error names index 1;
without parameters the parameter-count error is returned. -/
theorem BuildGenericCall_execute_errors_witness :
    BuildGenericCall demoCrypto executeSig [] = .error (.error .executeParamCount) ∧
    BuildGenericCall demoCrypto executeSig [.str "0x"] = .error (.error .executeNotArray) ∧
    ∃ e, BuildGenericCall demoCrypto executeSig
        [.slice [.obj [("data", .str "0x01"), ("to", .str TokenContract), ("value", .str "5")],
                 .obj [("data", .str "0x0"), ("to", .str TokenContract), ("value", .str "5")]]]
        = .error (.error e) ∧ e.callIndex = some 1 := by
  obtain ⟨h1, h2, h3⟩ := BuildGenericCall_execute_errors demoCrypto
  refine ⟨h1 [] (by decide), h2 (.str "0x") (by intro items h; cases h), ?_⟩
  refine h3 _ 1 (.obj [("data", .str "0x0"), ("to", .str TokenContract), ("value", .str "5")])
    rfl (by decide) ?_
  intro j q hj hq
  have hj0 : j = 0 := by omega
  subst hj0
  simp only [List.get?_cons_zero, Option.some.injEq] at hq
  subst hq
  decide

/-! ## What validation and the single-call path do not read -/

/-- C16: for a fixed service, chain state and time, two authorizations with
the same `CreatedAt`, `ChainID`, `Nonce` and `Signer` get the same outcome of
`validateAuthorization` (same pass or same failure, same requests to the
client), whatever their `V`, `R`, `S` and delegate `Address`: no signature is
verified and the delegate is not checked against the allow-list. -/
theorem validateAuthorization_ignores_signature {σ : Type} (now : Int)
    (d : Option (DelegationService σ)) (a b : Authorization) (w : World σ)
    (hc : a.CreatedAt = b.CreatedAt) (hi : a.ChainID = b.ChainID)
    (hn : a.Nonce = b.Nonce) (hs : a.Signer = b.Signer) :
    validateAuthorization now d (some a) w = validateAuthorization now d (some b) w := by
  unfold validateAuthorization
  simp only [hc, hi, hn, hs]

/-- C16 witness: the example authorization and a copy with another delegate
address and another signature are both accepted. -/
theorem validateAuthorization_ignores_signature_witness :
    validateAuthorization 1000 (demoService demoNonces (.ok 1000000000)) (some demoAuth)
        demoWorld
      = validateAuthorization 1000 (demoService demoNonces (.ok 1000000000))
          (some { demoAuth with Address := addrA, V := 0, R := fixedBE 32 1, S := fixedBE 32 2 })
          demoWorld ∧
    (validateAuthorization 1000 (demoService demoNonces (.ok 1000000000)) (some demoAuth)
        demoWorld).1 = .ok () ∧
    isKnownContract addrA = false :=
  ⟨validateAuthorization_ignores_signature 1000 _ demoAuth
      { demoAuth with Address := addrA, V := 0, R := fixedBE 32 1, S := fixedBE 32 2 }
      demoWorld rfl rfl rfl rfl, rfl, by decide⟩

theorem validateCalls_single (c : Call) :
    validateCalls [c] = .ok () ↔ c.To ≠ Address.zero ∧ c.Value.getD 0 ≤ 10 * 10 ^ 18 := by
  rw [validateCalls_ok_iff]
  simp [totalValue]

/-- C17: for a fixed authorization, sponsor key, time and chain client, two
one-element call lists that both pass `validateCalls` and agree on `Data` and
`GasLimit` give the same outcome of `ExecuteSponsored`, in particular the
same transaction body, whatever the `To` and `Value` of the two calls. -/
theorem ExecuteSponsored_single_ignores_to_value {σ : Type} (C : Crypto) (now : Int)
    (d : Option (DelegationService σ)) (auth : Option Authorization) (c1 c2 : Call)
    (sponsorPK : Option PrivateKey) (w : World σ)
    (h1 : validateCalls [c1] = .ok ()) (h2 : validateCalls [c2] = .ok ())
    (hd : c1.Data = c2.Data) (hg : c1.GasLimit = c2.GasLimit) :
    ExecuteSponsored C now d auth [c1] sponsorPK w
      = ExecuteSponsored C now d auth [c2] sponsorPK w ∧
    ∀ tx1 tx2, (ExecuteSponsored C now d auth [c1] sponsorPK w).1 = .ok tx1 →
      (ExecuteSponsored C now d auth [c2] sponsorPK w).1 = .ok tx2 →
      tx1.inner = tx2.inner := by
  have hb : buildCallData C [c1] = buildCallData C [c2] := by
    simp only [buildCallData, hd, hg]
  have heq : ExecuteSponsored C now d auth [c1] sponsorPK w
      = ExecuteSponsored C now d auth [c2] sponsorPK w := by
    unfold ExecuteSponsored
    simp only [h1, h2, hb]
  refine ⟨heq, ?_⟩
  intro tx1 tx2 e1 e2
  rw [heq, e2] at e1
  cases e1
  rfl

/-- C17 witness: a call to `addrA` with value 0 and a call to `addrB` with
value 7, both with data `[1, 2, 3]` and no gas override, give the same
transaction. -/
theorem ExecuteSponsored_single_ignores_to_value_witness :
    ExecuteSponsored demoCrypto 1000 (demoService demoNonces (.ok 1000000000)) (some demoAuth)
        [⟨addrA, [1, 2, 3], some 0, 0⟩] (some demoSponsor) demoWorld
      = ExecuteSponsored demoCrypto 1000 (demoService demoNonces (.ok 1000000000))
          (some demoAuth) [⟨addrB, [1, 2, 3], some 7, 0⟩] (some demoSponsor) demoWorld ∧
    ∃ tx, (ExecuteSponsored demoCrypto 1000 (demoService demoNonces (.ok 1000000000))
        (some demoAuth) [⟨addrA, [1, 2, 3], some 0, 0⟩] (some demoSponsor) demoWorld).1
          = .ok tx :=
  ⟨(ExecuteSponsored_single_ignores_to_value demoCrypto 1000 _ (some demoAuth)
      ⟨addrA, [1, 2, 3], some 0, 0⟩ ⟨addrB, [1, 2, 3], some 7, 0⟩ (some demoSponsor) demoWorld
      ((validateCalls_single _).mpr ⟨by decide, by decide⟩)
      ((validateCalls_single _).mpr ⟨by decide, by decide⟩) rfl rfl).1, ⟨_, rfl⟩⟩

/-- C18: `validateCalls` bounds only the signed sum: the list of a call to
`addrA` with value `20·10^18` and a call to `addrB` with value `-15·10^18` has
non-zero `To` addresses and one value above the cap `10·10^18`, and is
accepted. -/
theorem validateCalls_signed_sum :
    ∃ calls : List Call,
      calls = [⟨addrA, [], some (20 * 10 ^ 18), 0⟩, ⟨addrB, [], some (-(15 * 10 ^ 18)), 0⟩] ∧
      (∀ c ∈ calls, c.To ≠ Address.zero) ∧
      (∃ c ∈ calls, ∃ v, c.Value = some v ∧ 10 * 10 ^ 18 < v) ∧
      validateCalls calls = .ok () := by
  refine ⟨_, rfl, ?_, ?_, ?_⟩
  · intro c hc
    simp only [List.mem_cons, List.mem_singleton, List.not_mem_nil, or_false] at hc
    rcases hc with rfl | rfl <;> decide
  · exact ⟨⟨addrA, [], some (20 * 10 ^ 18), 0⟩, by simp, 20 * 10 ^ 18, rfl, by norm_num⟩
  · rw [validateCalls_ok_iff]
    refine ⟨by simp, ?_, ?_⟩
    · intro c hc
      simp only [List.mem_cons, List.mem_singleton, List.not_mem_nil, or_false] at hc
      rcases hc with rfl | rfl <;> decide
    · simp only [totalValue, List.map_cons, List.map_nil, Option.getD_some, List.sum_cons,
        List.sum_nil]
      norm_num

theorem bigBytes_neg (n : Int) : bigBytes n = bigBytes (-n) := by
  unfold bigBytes
  rw [Int.natAbs_neg]

/-- C19: for every token address, recipient address and negative amount `n`
with `|n| < 2^256`, `Mint`, `Transfer` and `SendETHDirectly` return for `n`
exactly what they return for `|n|`, and the amount word is the 32-byte
big-endian form of `|n|`, not a two's-complement word. -/
theorem fixed_encoders_drop_sign (C : Crypto) (tokenAddr toAddr : Address) (n : Int)
    (hneg : n < 0) (hlt : -n < 2 ^ 256) :
    Mint C tokenAddr toAddr n = Mint C tokenAddr toAddr (-n) ∧
    Transfer C tokenAddr toAddr n = Transfer C tokenAddr toAddr (-n) ∧
    SendETHDirectly C toAddr n = SendETHDirectly C toAddr (-n) ∧
    LeftPadBytes (bigBytes n) 32 = fixedBE 32 (-n).toNat ∧
    (fromBytesBE (LeftPadBytes (bigBytes n) 32) : Int) = -n := by
  have hw : LeftPadBytes (bigBytes n) 32 = fixedBE 32 (-n).toNat := by
    have hn : n.natAbs < 256 ^ 32 := by
      have : (256 : Nat) ^ 32 = 2 ^ 256 := by norm_num
      rw [this]; omega
    have ha : n.natAbs = (-n).toNat := by omega
    unfold bigBytes
    rw [LeftPadBytes_natBytes 32 _ hn, ha]
  refine ⟨?_, ?_, ?_, hw, ?_⟩
  · simp only [Mint, ← bigBytes_neg]
  · simp only [Transfer, ← bigBytes_neg]
  · simp only [SendETHDirectly, ← bigBytes_neg]
  · rw [hw, fromBytesBE_fixedBE]
    have hn : (-n).toNat < 256 ^ 32 := by
      have : (256 : Nat) ^ 32 = 2 ^ 256 := by norm_num
      rw [this]; omega
    rw [Nat.mod_eq_of_lt hn]
    omega

/-- C19 witness: the amount `-1000` is encoded as `1000`. -/
theorem fixed_encoders_drop_sign_witness :
    Mint demoCrypto addrA addrB (-1000) = Mint demoCrypto addrA addrB 1000 ∧
    LeftPadBytes (bigBytes (-1000)) 32 = fixedBE 32 1000 := by
  obtain ⟨h1, _, _, h4, _⟩ :=
    fixed_encoders_drop_sign demoCrypto addrA addrB (-1000) (by decide) (by norm_num)
  exact ⟨h1, h4⟩

/-! ## Unit conversion -/

theorem floatInt_ne_odd (x : BigFloat) (h : x.mant ≤ 2 ^ 64) (N : Nat) (hodd : N % 2 = 1)
    (hN : 2 ^ 64 ≤ N) : floatInt x ≠ (N : Int) := by
  intro hx
  unfold floatInt at hx
  simp only at hx
  have key : (if 0 ≤ x.exp then x.mant * 2 ^ x.exp.toNat else x.mant / 2 ^ (-x.exp).toNat) = N := by
    cases hneg : x.neg with
    | true =>
      rw [hneg] at hx
      simp only [if_true] at hx
      omega
    | false =>
      rw [hneg] at hx
      simp only [Bool.false_eq_true, if_false] at hx
      exact_mod_cast hx
  by_cases he : 0 ≤ x.exp
  · rw [if_pos he] at key
    cases hk : x.exp.toNat with
    | zero =>
      rw [hk, pow_zero, Nat.mul_one] at key
      have h64 : (2 : Nat) ^ 64 % 2 = 0 := by norm_num
      omega
    | succ k =>
      rw [hk, pow_succ, ← Nat.mul_assoc] at key
      omega
  · rw [if_neg he] at key
    have hpos : 0 < (-x.exp).toNat := by omega
    have h2 : 2 ≤ 2 ^ (-x.exp).toNat := by
      calc 2 = 2 ^ 1 := by norm_num
        _ ≤ 2 ^ (-x.exp).toNat := Nat.pow_le_pow_right (by norm_num) hpos
    have hle : x.mant / 2 ^ (-x.exp).toNat ≤ x.mant / 2 :=
      Nat.div_le_div_left h2 (by norm_num)
    have : x.mant / 2 < 2 ^ 64 := by omega
    omega

/-- C15 (failing inputs): the decimal text `20.000000000000000001` denotes
20 ether and 1 wei, `20000000000000000001` base units exactly, and
`EtherToWei` returns `20000000000000000002`; the text `18446744073709551617`
(`2^64 + 1`) with 0 decimals denotes itself and `TokenAmountToWei` returns
`2^64`. Both results went through a float of 64 bits of precision. -/
theorem EtherToWei_loses_precision :
    exactUnits ("20.000000000000000001").data 18 = some 20000000000000000001 ∧
    EtherToWei "20.000000000000000001" = some 20000000000000000002 ∧
    exactUnits ("18446744073709551617").data 0 = some 18446744073709551617 ∧
    TokenAmountToWei "18446744073709551617" 0 = some 18446744073709551616 := by
  refine ⟨by decide!, by decide!, by decide!, by decide!⟩

end EIP7702
